import Mathlib

/-!
Verification development for the flowly collaborative-editor CRDT core.

The definitions below are a shallow embedding of the TypeScript sources:

* `src/types/CRDT.ts` — fractional position algebra (`generatePosition`,
  `generateBefore`, `generateAfter`, `generateBetween`, `comparePositions`)
  and the id generators (`generateOperationId`, `generateCharId`);
* `src/lib/crdt/CRDTEngine.ts` — the per-field engine (`CRDTEngine`);
* `src/lib/crdt/UndoRedoManager.ts` — batching undo/redo (`UndoRedoManager`);
* `src/lib/crdt/MultiFieldCRDTEngine.ts` — the per-field orchestration layer.

Modelling conventions, chosen to stay faithful to the JavaScript semantics:

* JS numbers: every `parseFloat` in the sources is applied to a dot-free
  string segment (the split on `'.'` happens first), so every parsed value
  is an integer; the only non-integer number that ever arises is the
  midpoint `prev + (next - prev) / 2` of two parsed integers, which is a
  half-integer and exactly representable as an IEEE double.  We therefore
  model JS numbers as `Option Int` (`none` = NaN) and carry the midpoint
  as its double (`p + n`), rendering `(p + n) / 2` with `renderHalf`.
  Exponent notation and values beyond 2^53 are outside the scope of the
  position generators and are not modelled.
* JS strings are Lean `String`s; `split('.')` is `splitCh '.'` on the
  character list, and `localeCompare` is modelled as code-point
  lexicographic comparison (the ECMAScript default collation agrees with
  this on the digit/letter strings produced by the position generators).
* `Array.prototype.sort` is required by ECMAScript to be stable and to
  coerce a NaN comparator result to +0; any stable sort is a conforming
  implementation, so we model it as a stable insertion sort (`jsSortBy`).
* `Date.now()` is modelled as an explicit `now : Nat` argument at each
  call site, and timers (batch timeouts) as explicit finalization calls,
  per the spec's own design notes.
* The generated ids `generateOperationId` / `generateCharId` embed
  `Date.now()` and `Math.random()`, which in practice makes them distinct
  from every other id in the system.  We model the id space as an
  inductive type `CId`: fresh draws are `opGen`/`charGen` applied to the
  client id, an entropy-stream seed, and a draw counter; the `undo_`
  prefix concatenation is the constructor `undoOf`; every other string id
  embeds through `raw`; `undef` models a JS `undefined` used as a Map key.
-/

namespace Flowly

/-! ## JS string and number primitives -/

/-- Split a character list at every occurrence of `sep`, like JS
`String.prototype.split` with a single-character separator.  The result is
always non-empty. -/
def splitCh (sep : Char) : List Char → List (List Char)
  | [] => [[]]
  | c :: cs =>
    if c = sep then [] :: splitCh sep cs
    else
      match splitCh sep cs with
      | [] => [[c]]
      | p :: ps => (c :: p) :: ps

/-- First segment of a split (JS `parts[0]`; a split is never empty). -/
def headPart (ps : List (List Char)) : List Char := ps.headD []

/-- Segment at index `i` (JS `parts[i]`, `undefined` out of range modelled
as the empty segment, on which `jsParseFloat` yields NaN exactly as
`parseFloat(undefined)` does). -/
def partAt (ps : List (List Char)) (i : Nat) : List Char := (ps.get? i).getD []

/-- Decimal digit test (`'0' ≤ c ≤ '9'`, code points 48–57). -/
def isDigitCh (c : Char) : Bool :=
  decide (48 ≤ c.toNat ∧ c.toNat ≤ 57)

/-- Numeric value of a non-empty list of decimal digits. -/
def digitsToNat (l : List Char) : Nat :=
  l.foldl (fun a c => 10 * a + (c.toNat - 48)) 0

/-- JS `parseFloat` restricted to the dot-free segments it is applied to in
this code base: optional sign, then a maximal run of decimal digits; the
rest of the segment is ignored; no digits means NaN (`none`).  (Exponent
notation and `Infinity` are never produced by the position generators and
are not modelled.) -/
def jsParseFloat (l : List Char) : Option Int :=
  let signAndRest : Bool × List Char :=
    match l with
    | '-' :: r => (true, r)
    | '+' :: r => (false, r)
    | r => (false, r)
  let ds := signAndRest.2.takeWhile isDigitCh
  if ds.isEmpty then none
  else some ((if signAndRest.1 then (-1 : Int) else 1) * (digitsToNat ds : Int))

/-- Decimal digit character for `d < 10`. -/
def digitChar (d : Nat) : Char :=
  match d with
  | 0 => '0' | 1 => '1' | 2 => '2' | 3 => '3' | 4 => '4'
  | 5 => '5' | 6 => '6' | 7 => '7' | 8 => '8' | _ => '9'

/-- Decimal rendering of a natural number (fuel-based so that it reduces in
the kernel); `natChars n` uses fuel `n + 1`, which is always sufficient. -/
def natCharsAux : Nat → Nat → List Char
  | 0, _ => []
  | fuel + 1, n =>
    if n < 10 then [digitChar n]
    else natCharsAux fuel (n / 10) ++ [digitChar (n % 10)]

/-- Decimal rendering of a natural number, as JS `Number#toString`. -/
def natChars (n : Nat) : List Char := natCharsAux (n + 1) n

/-- Decimal rendering of an integer, as JS `Number#toString`. -/
def intChars (z : Int) : List Char :=
  if z < 0 then '-' :: natChars z.natAbs else natChars z.natAbs

/-- Rendering of the JS number `s / 2` (the only non-integer values in
scope are half-integers), as JS `Number#toString`: integers render without
a decimal point, halves with a trailing `.5`. -/
def renderHalf (s : Int) : List Char :=
  if s % 2 = 0 then intChars (s / 2)
  else (if s < 0 then ['-'] else []) ++ natChars (s.natAbs / 2) ++ ['.', '5']

/-- Rendering of a possibly-NaN JS number (`${num}` templates `NaN` as the
string `NaN`, which `parseFloat` in turn reads back as NaN). -/
def numChars : Option Int → List Char
  | some z => intChars z
  | none => ['N', 'a', 'N']

/-- Code-point lexicographic comparison of character lists; models
`String.prototype.localeCompare`, whose ECMAScript default collation
agrees with code-point order on the digit/letter strings in scope. -/
def lexCmp : List Char → List Char → Int
  | [], [] => 0
  | [], _ :: _ => -1
  | _ :: _, [] => 1
  | a :: as, b :: bs =>
    if a < b then -1
    else if b < a then 1
    else lexCmp as bs

/-- NaN-propagating subtraction of JS numbers. -/
def jsNumSub : Option Int → Option Int → Option Int
  | some x, some y => some (x - y)
  | _, _ => none

/-- JS falsiness of a nullable string (`null`, `undefined` and the empty
string are all falsy). -/
def jsFalsy : Option String → Bool
  | none => true
  | some s => s = ""

/-- Array indexing with a JS number index: out-of-range (including
negative) indices yield `undefined`. -/
def jsIdx {α : Type} (l : List α) (i : Int) : Option α :=
  if h : 0 ≤ i ∧ i < (l.length : Int) then
    l.get ⟨i.toNat, by omega⟩
  else none

/-- Stable insertion of one element into a JS-sorted list: the element
goes after every element that compares strictly before it.  `cmp b a < 0`
says `b` sorts strictly before `a`. -/
def sortInsertJs {α : Type} (cmp : α → α → Int) (a : α) : List α → List α
  | [] => [a]
  | b :: l => if cmp b a < 0 then b :: sortInsertJs cmp a l else a :: b :: l

/-- `Array.prototype.sort` with a numeric comparator: ECMAScript requires a
stable sort (a NaN comparator result is coerced to +0), and any stable
sort is a conforming implementation; we use stable insertion. -/
def jsSortBy {α : Type} (cmp : α → α → Int) (l : List α) : List α :=
  l.foldr (sortInsertJs cmp) []

/-! ## Position algebra (`src/types/CRDT.ts`) -/

/-- Dot-split of a position string (JS `pos.split('.')`). -/
def posParts (s : String) : List (List Char) := splitCh '.' s.data

/-- Parsed numeric part of a position: `parseFloat(pos.split('.')[0])`. -/
def posNum (s : String) : Option Int := jsParseFloat (headPart (posParts s))

/-- `generateBefore` from `src/types/CRDT.ts`: decrement the parsed
integer part and append `.0.clientId`. -/
def generateBefore (pos : String) (clientId : String) : String :=
  String.mk (numChars ((jsParseFloat (headPart (posParts pos))).map (· - 1)) ++
    '.' :: '0' :: '.' :: clientId.data)

/-- `generateAfter` from `src/types/CRDT.ts`: increment the parsed integer
part and append `.0.clientId`. -/
def generateAfter (pos : String) (clientId : String) : String :=
  String.mk (numChars ((jsParseFloat (headPart (posParts pos))).map (· + 1)) ++
    '.' :: '0' :: '.' :: clientId.data)

/-- `generateBetween` from `src/types/CRDT.ts`: parse the integer parts of
both positions, take the numeric midpoint `prev + (next - prev) / 2`
(carried doubled as `p + n`, see the header notes), and append
`.clientId`. -/
def generateBetween (prev next : String) (clientId : String) : String :=
  match jsParseFloat (headPart (posParts prev)), jsParseFloat (headPart (posParts next)) with
  | some p, some n => String.mk (renderHalf (p + n) ++ '.' :: clientId.data)
  | _, _ => String.mk (['N', 'a', 'N'] ++ '.' :: clientId.data)

/-- `generatePosition` from `src/types/CRDT.ts`.  The JS code tests
`!prevPos` / `!nextPos`, so an empty string behaves like an absent
position (`jsFalsy`). -/
def generatePosition (prevPos nextPos : Option String) (clientId : String) : String :=
  if jsFalsy prevPos ∧ jsFalsy nextPos then
    String.mk ('1' :: '.' :: '0' :: '.' :: clientId.data)
  else if jsFalsy prevPos then
    generateBefore (nextPos.getD "") clientId
  else if jsFalsy nextPos then
    generateAfter (prevPos.getD "") clientId
  else
    generateBetween (prevPos.getD "") (nextPos.getD "") clientId

/-- `comparePositions` from `src/types/CRDT.ts`.  Returns `none` where the
JS code returns NaN (possible only when a numeric part fails to parse). -/
def comparePositions (a b : String) : Option Int :=
  let aParts := posParts a
  let bParts := posParts b
  if aParts.length = 1 ∧ bParts.length = 1 then
    jsNumSub (jsParseFloat a.data) (jsParseFloat b.data)
  else
    match jsParseFloat (headPart aParts), jsParseFloat (headPart bParts) with
    | some x, some y =>
      if x ≠ y then some (x - y)
      else
        let aHasSub := 3 ≤ aParts.length ∧ (jsParseFloat (partAt aParts 1)).isSome
        let bHasSub := 3 ≤ bParts.length ∧ (jsParseFloat (partAt bParts 1)).isSome
        if aHasSub ∧ ¬ bHasSub then some 1
        else if ¬ aHasSub ∧ bHasSub then some (-1)
        else some (lexCmp a.data b.data)
    | _, _ => none

/-- Comparator value as consumed by `Array.prototype.sort`, which coerces
a NaN comparator result to +0 (ECMAScript `SortCompare`). -/
def posCmp (a b : String) : Int := (comparePositions a b).getD 0

/-! ## Identifiers and the data model (`src/types/CRDT.ts`) -/

/-- The string id space, with the id generators as constructors (see the
header notes): `opGen c s n` / `charGen c s n` are the ids produced by
`generateOperationId(c)` / `generateCharId(c)` — `s` models the
`Date.now()`/`Math.random()` entropy stream of the generating party and
`n` the draw index, which in practice makes every draw distinct from every
other id; `undoOf i` is the string `"undo_" + i` built by the undo
manager; `raw` embeds any other string id; `undef` stands for a JS
`undefined` used where an id is expected. -/
inductive CId : Type where
  | raw (s : String)
  | undef
  | opGen (clientId : String) (seed n : Nat)
  | charGen (clientId : String) (seed n : Nat)
  | undoOf (base : CId)
deriving DecidableEq, Repr

/-- `OperationType` from `src/types/CRDT.ts`. -/
inductive OperationType : Type where
  | insert
  | delete
deriving DecidableEq, Repr

/-- `FieldType` from `src/types/CRDT.ts`. -/
inductive FieldType : Type where
  | content
  | title
  | description
  | tags
deriving DecidableEq, Repr

/-- `CRDTChar` from `src/types/CRDT.ts`.  The `char` field is declared
`string` in TS but can hold `undefined` at runtime (the engine casts
loosely-typed operations), so it is modelled as `Option String`;
`Array.prototype.join` renders such a hole as the empty string. -/
structure CRDTChar : Type where
  id : CId
  char : Option String
  position : String
  clientId : String
  deleted : Bool
deriving DecidableEq, Repr

/-- `CRDTOperation` from `src/types/CRDT.ts` (`char` is present on
inserts, `charId` on deletes; both are optional in the TS record).  The
`metadata` blob attached by the undo manager is never read anywhere and is
omitted. -/
structure CRDTOperation : Type where
  id : CId
  type : OperationType
  field : FieldType
  position : String
  char : Option String
  charId : Option CId
  clientId : String
  documentId : String
  timestamp : Nat
deriving DecidableEq, Repr

/-! ### JS `Map` as an insertion-ordered association list

JS `Map` iterates in insertion order; `set` on an existing key updates the
value in place, keeping the key's position in the iteration order. -/

/-- `Map.prototype.get`. -/
def mget (l : List (CId × CRDTChar)) (k : CId) : Option CRDTChar :=
  (l.find? (fun kv => kv.1 = k)).map (fun kv => kv.2)

/-- `Map.prototype.set`: replace in place, else append. -/
def mset : List (CId × CRDTChar) → CId → CRDTChar → List (CId × CRDTChar)
  | [], k, v => [(k, v)]
  | kv :: rest, k, v =>
    if kv.1 = k then (k, v) :: rest else kv :: mset rest k v

/-- `Map.prototype.values` (insertion order). -/
def mvalues (l : List (CId × CRDTChar)) : List CRDTChar := l.map (fun kv => kv.2)

/-! ## The per-field engine (`src/lib/crdt/CRDTEngine.ts`) -/

/-- Result record of `CRDTEngine.getStats`. -/
structure EngineStats : Type where
  totalOperations : Nat
  insertOperations : Nat
  deleteOperations : Nat
  totalCharacters : Nat
  deletedCharacters : Nat
deriving DecidableEq, Repr

/-- `CRDTEngine` state: `content`, `operations` and `characters` fields of
the class, plus the id-generation bookkeeping (`seed` is the engine's
entropy stream, `charCtr`/`opCtr` count the `generateCharId` /
`generateOperationId` draws it has made). -/
structure CRDTEngine : Type where
  content : String
  operations : List CRDTOperation
  characters : List (CId × CRDTChar)
  documentId : String
  clientId : String
  seed : Nat
  charCtr : Nat
  opCtr : Nat
deriving DecidableEq, Repr

/-- A freshly constructed `CRDTEngine`. -/
def CRDTEngine.init (documentId clientId : String) (seed : Nat) : CRDTEngine :=
  { content := ""
    operations := []
    characters := []
    documentId := documentId
    clientId := clientId
    seed := seed
    charCtr := 0
    opCtr := 0 }

/-- Comparator passed to `sort` in `getSortedVisibleChars`. -/
def charCmp (a b : CRDTChar) : Int := posCmp a.position b.position

/-- `CRDTEngine.getSortedVisibleChars`: non-deleted characters in position
order (insertion order breaking comparator ties, since the sort is
stable). -/
def CRDTEngine.getSortedVisibleChars (e : CRDTEngine) : List CRDTChar :=
  jsSortBy charCmp ((mvalues e.characters).filter (fun c => ¬ c.deleted))

/-- `CRDTEngine.getContent`: visible characters joined (a JS
`Array.prototype.join` renders an `undefined` element as `""`). -/
def CRDTEngine.getContent (e : CRDTEngine) : String :=
  (e.getSortedVisibleChars.map (fun c => c.char.getD "")).foldl (· ++ ·) ""

/-- `CRDTEngine.getVisibleContent` (same computation as `getContent`). -/
def CRDTEngine.getVisibleContent (e : CRDTEngine) : String := e.getContent

/-- `CRDTEngine.applyInsert`: use the provided character, or materialize
one with a freshly generated char id (`generateCharId(operation.clientId)`
— note: generated by the *applying* engine's entropy stream). -/
def CRDTEngine.applyInsert (e : CRDTEngine) (op : CRDTOperation)
    (crdtChar : Option CRDTChar) : CRDTEngine :=
  match crdtChar with
  | some c => { e with characters := mset e.characters c.id c }
  | none =>
    let c : CRDTChar :=
      { id := CId.charGen op.clientId e.seed e.charCtr
        char := op.char
        position := op.position
        clientId := op.clientId
        deleted := false }
    { e with characters := mset e.characters c.id c, charCtr := e.charCtr + 1 }

/-- The tail of `CRDTEngine.applyDelete`: `character.deleted = true;
characters.set(character.id, character)`.  The in-place mutation updates
the entry the character was found at (key `k`), and the subsequent `set`
the entry at `character.id`; for every state the engine actually builds
these are the same key. -/
def markDeleted (chars : List (CId × CRDTChar)) (k : CId) (c : CRDTChar) :
    List (CId × CRDTChar) :=
  let cd := { c with deleted := true }
  mset (mset chars k cd) cd.id cd

/-- `CRDTEngine.applyDelete`: find the character by `charId`; if absent,
search all characters (deleted ones included) for a `(position, char)`
match; else synthesize a tombstoned character under the operation's
`charId` (a JS `undefined` charId keys the map at `undefined`, modelled by
`CId.undef`). -/
def CRDTEngine.applyDelete (e : CRDTEngine) (op : CRDTOperation) : CRDTEngine :=
  let cid := op.charId.getD CId.undef
  match mget e.characters cid with
  | some c => { e with characters := markDeleted e.characters cid c }
  | none =>
    match e.characters.find? (fun kv => kv.2.position == op.position && kv.2.char == op.char) with
    | some kv => { e with characters := markDeleted e.characters kv.1 kv.2 }
    | none =>
      let c : CRDTChar :=
        { id := cid
          char := op.char
          position := op.position
          clientId := op.clientId
          deleted := false }
      let chars1 := mset e.characters cid c
      { e with characters := markDeleted chars1 cid c }

/-- `CRDTEngine.applyOperation`: skip if the operation id was already
applied; otherwise dispatch on the type, append the operation to the log,
and recompute `content`. -/
def CRDTEngine.applyOperation (e : CRDTEngine) (op : CRDTOperation)
    (crdtChar : Option CRDTChar) : CRDTEngine :=
  if e.operations.any (fun o => o.id = op.id) then e
  else
    let e1 :=
      match op.type with
      | OperationType.insert => e.applyInsert op crdtChar
      | OperationType.delete => e.applyDelete op
    let e2 := { e1 with operations := e1.operations ++ [op] }
    { e2 with content := e2.getContent }

/-- `prevChar?.position || null`: an absent neighbour, or one with an
empty position string, contributes `null`. -/
def neighbourPos (c : Option CRDTChar) : Option String :=
  match c with
  | none => none
  | some c => if c.position = "" then none else some c.position

/-- `CRDTEngine.insertChar` (`now` models the `Date.now()` call).  The JS
method performs no range check: out-of-range indices simply yield absent
neighbours.  Returns the created operation and the updated engine. -/
def CRDTEngine.insertChar (e : CRDTEngine) (char : String) (visiblePosition : Int)
    (now : Nat) : CRDTOperation × CRDTEngine :=
  let sortedChars := e.getSortedVisibleChars
  let prevChar := jsIdx sortedChars (visiblePosition - 1)
  let nextChar := jsIdx sortedChars visiblePosition
  let position := generatePosition (neighbourPos prevChar) (neighbourPos nextChar) e.clientId
  let crdtChar : CRDTChar :=
    { id := CId.charGen e.clientId e.seed e.charCtr
      char := some char
      position := position
      clientId := e.clientId
      deleted := false }
  let op : CRDTOperation :=
    { id := CId.opGen e.clientId e.seed e.opCtr
      type := OperationType.insert
      field := FieldType.content
      position := position
      char := some char
      charId := none
      clientId := e.clientId
      documentId := e.documentId
      timestamp := now }
  let e1 := { e with charCtr := e.charCtr + 1, opCtr := e.opCtr + 1 }
  (op, e1.applyOperation op (some crdtChar))

/-- `CRDTEngine.deleteChar`: fails on an index outside the visible range,
otherwise builds a delete operation referencing the character's id and
applies it. -/
def CRDTEngine.deleteChar (e : CRDTEngine) (visiblePosition : Int) (now : Nat) :
    Option CRDTOperation × CRDTEngine :=
  let sortedChars := e.getSortedVisibleChars
  if visiblePosition < 0 ∨ (sortedChars.length : Int) ≤ visiblePosition then (none, e)
  else
    match jsIdx sortedChars visiblePosition with
    | none => (none, e)
    | some charToDelete =>
      let op : CRDTOperation :=
        { id := CId.opGen e.clientId e.seed e.opCtr
          type := OperationType.delete
          field := FieldType.content
          position := charToDelete.position
          char := charToDelete.char
          charId := some charToDelete.id
          clientId := e.clientId
          documentId := e.documentId
          timestamp := now }
      let e1 := { e with opCtr := e.opCtr + 1 }
      (some op, e1.applyOperation op none)

/-- `CRDTEngine.rebuildContent`: clear the characters map and replay the
stored operation log through `applyOperation` (which consults that very
log for duplicate ids). -/
def CRDTEngine.rebuildContent (e : CRDTEngine) : CRDTEngine :=
  let e0 := { e with characters := [] }
  e0.operations.foldl (fun acc op => acc.applyOperation op none) e0

/-- `CRDTEngine.getStats`. -/
def CRDTEngine.getStats (e : CRDTEngine) : EngineStats :=
  { totalOperations := e.operations.length
    insertOperations := (e.operations.filter (fun o => o.type = OperationType.insert)).length
    deleteOperations := (e.operations.filter (fun o => o.type = OperationType.delete)).length
    totalCharacters := e.characters.length
    deletedCharacters := ((mvalues e.characters).filter (fun c => c.deleted)).length }

/-! ## Undo/redo (`src/lib/crdt/UndoRedoManager.ts`)

Timers are modelled as explicit finalization calls and `Date.now()` as an
explicit `now` argument (see the header notes); JS array `push`/`pop`
operate on the list's tail and `shift` on its head. -/

/-- `UndoStep` from `src/types/CRDT.ts`. -/
structure UndoStep : Type where
  id : CId
  operations : List CRDTOperation
  timestamp : Nat
  userId : String
  field : FieldType
  description : String
deriving DecidableEq, Repr

/-- Per-field `UndoRedoState` (the `batchTimeout` timer handle is modelled
away, per the header notes). -/
structure UndoRedoFieldState : Type where
  undoStack : List UndoStep
  redoStack : List UndoStep
  currentBatch : Option (List CRDTOperation)
  batchStartTime : Option Nat
deriving DecidableEq, Repr

/-- `UndoRedoConfig`. -/
structure UndoRedoConfig : Type where
  batchTimeout : Nat
  maxUndoSteps : Nat
  enableBatching : Bool
deriving DecidableEq, Repr

/-- The empty per-field undo/redo state. -/
def UndoRedoFieldState.initial : UndoRedoFieldState :=
  { undoStack := [], redoStack := [], currentBatch := none, batchStartTime := none }

/-- `UndoRedoManager` state (`seed`/`opCtr` are the manager's
`generateOperationId` entropy stream and draw counter). -/
structure UndoRedoManager : Type where
  states : FieldType → UndoRedoFieldState
  config : UndoRedoConfig
  userId : String
  documentId : String
  seed : Nat
  opCtr : Nat

/-- A freshly constructed manager (the `MultiFieldCRDTEngine` constructor
passes a 1000 ms batch timeout, 50 max undo steps, batching enabled). -/
def UndoRedoManager.init (userId documentId : String) (seed : Nat) : UndoRedoManager :=
  { states := fun _ => UndoRedoFieldState.initial
    config := { batchTimeout := 1000, maxUndoSteps := 50, enableBatching := true }
    userId := userId
    documentId := documentId
    seed := seed
    opCtr := 0 }

/-- Replace one field's undo/redo state. -/
def UndoRedoManager.setState (m : UndoRedoManager) (f : FieldType)
    (st : UndoRedoFieldState) : UndoRedoManager :=
  { m with states := fun g => if g = f then st else m.states g }

/-- Draw a fresh operation id (`generateOperationId(this.userId)`). -/
def UndoRedoManager.freshOpId (m : UndoRedoManager) : CId × UndoRedoManager :=
  (CId.opGen m.userId m.seed m.opCtr, { m with opCtr := m.opCtr + 1 })

/-- `generateBatchDescription`. -/
def generateBatchDescription (operations : List CRDTOperation) : String :=
  match operations with
  | [] => "No operations"
  | firstOp :: rest =>
    if rest.isEmpty then
      if firstOp.type = OperationType.insert then "Insert character" else "Delete character"
    else if operations.all (fun op => op.type = firstOp.type) then
      let count := String.mk (natChars operations.length)
      if firstOp.type = OperationType.insert then
        "Insert " ++ count ++ " characters"
      else "Delete " ++ count ++ " characters"
    else "Mixed operations (" ++ String.mk (natChars operations.length) ++ ")"

/-- `shouldBatchOperation`: an open batch, within the batch timeout, whose
last operation has the same type (an empty batch always accepts). -/
def UndoRedoManager.shouldBatchOperation (m : UndoRedoManager) (f : FieldType)
    (op : CRDTOperation) (now : Nat) : Bool :=
  let st := m.states f
  match st.currentBatch with
  | none => false
  | some batch =>
    let expired : Bool :=
      match st.batchStartTime with
      | some t => decide (m.config.batchTimeout < now - t)
      | none => false
    if expired then false
    else
      match batch.getLast? with
      | none => true
      | some lastOperation => op.type = lastOperation.type

/-- `finalizeBatch`: turn the open batch (if non-empty) into an `UndoStep`
on the undo stack, evicting the oldest step past `maxUndoSteps`. -/
def UndoRedoManager.finalizeBatch (m : UndoRedoManager) (f : FieldType) (now : Nat) :
    UndoRedoManager :=
  let st := m.states f
  match st.currentBatch with
  | none => m
  | some batch =>
    if batch.isEmpty then m
    else
      let idm := m.freshOpId
      let undoStep : UndoStep :=
        { id := idm.1
          operations := batch
          timestamp := now
          userId := m.userId
          field := f
          description := generateBatchDescription batch }
      let newStack := st.undoStack ++ [undoStep]
      let newStack := if m.config.maxUndoSteps < newStack.length then newStack.tail else newStack
      idm.2.setState f
        { st with undoStack := newStack, currentBatch := none, batchStartTime := none }

/-- `createNewBatch`: finalize any open batch, then open a new one. -/
def UndoRedoManager.createNewBatch (m : UndoRedoManager) (f : FieldType)
    (operations : List CRDTOperation) (now : Nat) : UndoRedoManager :=
  let m1 := match (m.states f).currentBatch with
    | some _ => m.finalizeBatch f now
    | none => m
  m1.setState f
    { m1.states f with currentBatch := some operations, batchStartTime := some now }

/-- `addToBatch`: append to the open batch (or open one). -/
def UndoRedoManager.addToBatch (m : UndoRedoManager) (f : FieldType)
    (op : CRDTOperation) (now : Nat) : UndoRedoManager :=
  let st := m.states f
  match st.currentBatch with
  | none => m.createNewBatch f [op] now
  | some batch => m.setState f { st with currentBatch := some (batch ++ [op]) }

/-- `clearRedoStack`. -/
def UndoRedoManager.clearRedoStack (m : UndoRedoManager) (f : FieldType) :
    UndoRedoManager :=
  m.setState f { m.states f with redoStack := [] }

/-- `trackOperation`: only the local user's operations are tracked; batch
or open a fresh batch, then clear the redo stack. -/
def UndoRedoManager.trackOperation (m : UndoRedoManager) (op : CRDTOperation)
    (now : Nat) : UndoRedoManager :=
  if op.clientId ≠ m.userId then m
  else
    let f := op.field
    let m1 :=
      if m.config.enableBatching ∧ m.shouldBatchOperation f op now then
        m.addToBatch f op now
      else m.createNewBatch f [op] now
    m1.clearRedoStack f

/-- `generateInverseOperation`: insert becomes a delete whose `charId` is
the string `"undo_" + id` of the inserted operation; delete becomes an
insert of the same value at the same original position; both get a fresh
id and the current timestamp.  (The source's return type is nullable but
both branches return an operation.) -/
def UndoRedoManager.generateInverseOperation (m : UndoRedoManager)
    (operation : CRDTOperation) (now : Nat) : CRDTOperation × UndoRedoManager :=
  let idm := m.freshOpId
  match operation.type with
  | OperationType.insert =>
    ({ id := idm.1
       type := OperationType.delete
       field := operation.field
       position := operation.position
       char := operation.char
       charId := some (CId.undoOf operation.id)
       clientId := m.userId
       documentId := m.documentId
       timestamp := now }, idm.2)
  | OperationType.delete =>
    ({ id := idm.1
       type := OperationType.insert
       field := operation.field
       position := operation.position
       char := operation.char
       charId := none
       clientId := m.userId
       documentId := m.documentId
       timestamp := now }, idm.2)

/-- `generateInverseOperations`: one inverse per operation, in reverse
order. -/
def UndoRedoManager.generateInverseOperations (m : UndoRedoManager)
    (operations : List CRDTOperation) (now : Nat) :
    List CRDTOperation × UndoRedoManager :=
  operations.reverse.foldl
    (fun acc op =>
      let r := acc.2.generateInverseOperation op now
      (acc.1 ++ [r.1], r.2))
    ([], m)

/-- `undo`: nothing to do on an empty undo stack (checked *before* any
pending batch is finalized); otherwise finalize a pending batch, pop the
top step, emit its inverses, and push the step onto the redo stack. -/
def UndoRedoManager.undo (m : UndoRedoManager) (f : FieldType) (now : Nat) :
    Option (List CRDTOperation) × UndoRedoManager :=
  let st := m.states f
  if st.undoStack.isEmpty then (none, m)
  else
    let m1 := match st.currentBatch with
      | some _ => m.finalizeBatch f now
      | none => m
    let st1 := m1.states f
    match st1.undoStack.getLast? with
    | none => (none, m1)
    | some undoStep =>
      let m2 := m1.setState f { st1 with undoStack := st1.undoStack.dropLast }
      let r := m2.generateInverseOperations undoStep.operations now
      let st3 := r.2.states f
      (some r.1, r.2.setState f { st3 with redoStack := st3.redoStack ++ [undoStep] })

/-- `createRedoOperations`: re-issue the step's operations with fresh ids
and the current timestamp. -/
def UndoRedoManager.createRedoOperations (m : UndoRedoManager)
    (operations : List CRDTOperation) (now : Nat) :
    List CRDTOperation × UndoRedoManager :=
  operations.foldl
    (fun acc op =>
      let idm := acc.2.freshOpId
      (acc.1 ++ [{ op with id := idm.1, timestamp := now }], idm.2))
    ([], m)

/-- `redo`: pop the top redo step, re-issue its operations with fresh ids,
and push the step back onto the undo stack. -/
def UndoRedoManager.redo (m : UndoRedoManager) (f : FieldType) (now : Nat) :
    Option (List CRDTOperation) × UndoRedoManager :=
  let st := m.states f
  if st.redoStack.isEmpty then (none, m)
  else
    match st.redoStack.getLast? with
    | none => (none, m)
    | some redoStep =>
      let m1 := m.setState f { st with redoStack := st.redoStack.dropLast }
      let r := m1.createRedoOperations redoStep.operations now
      let st2 := r.2.states f
      (some r.1, r.2.setState f { st2 with undoStack := st2.undoStack ++ [redoStep] })

/-- `canUndo`. -/
def UndoRedoManager.canUndo (m : UndoRedoManager) (f : FieldType) : Bool :=
  ¬ (m.states f).undoStack.isEmpty

/-- `canRedo`. -/
def UndoRedoManager.canRedo (m : UndoRedoManager) (f : FieldType) : Bool :=
  ¬ (m.states f).redoStack.isEmpty

/-- `finalizeAllBatches`. -/
def UndoRedoManager.finalizeAllBatches (m : UndoRedoManager) (now : Nat) :
    UndoRedoManager :=
  (((m.finalizeBatch FieldType.content now).finalizeBatch FieldType.title now).finalizeBatch
    FieldType.description now).finalizeBatch FieldType.tags now

/-! ## Multi-field orchestration (`src/lib/crdt/MultiFieldCRDTEngine.ts`) -/

/-- Per-field `FieldState` mirror kept by the multi-field engine. -/
structure FieldState : Type where
  content : String
  characters : List (CId × CRDTChar)
  operations : List CRDTOperation
deriving DecidableEq, Repr

/-- `MultiFieldCRDTEngine` state: one `CRDTEngine` and one `FieldState`
per field, plus the undo/redo manager.  The constructor gives the engines
and the manager distinct entropy streams (`engineSeed`, `mgrSeed`),
modelling that their random id draws never collide. -/
structure MultiFieldCRDTEngine : Type where
  engines : FieldType → CRDTEngine
  fieldStates : FieldType → FieldState
  undoRedoManager : UndoRedoManager
  documentId : String
  clientId : String

/-- A freshly constructed `MultiFieldCRDTEngine`. -/
def MultiFieldCRDTEngine.init (documentId clientId : String)
    (engineSeed mgrSeed : Nat) : MultiFieldCRDTEngine :=
  { engines := fun _ => CRDTEngine.init documentId clientId engineSeed
    fieldStates := fun _ => { content := "", characters := [], operations := [] }
    undoRedoManager := UndoRedoManager.init clientId documentId mgrSeed
    documentId := documentId
    clientId := clientId }

/-- Replace one field's engine. -/
def MultiFieldCRDTEngine.setEngine (m : MultiFieldCRDTEngine) (f : FieldType)
    (e : CRDTEngine) : MultiFieldCRDTEngine :=
  { m with engines := fun g => if g = f then e else m.engines g }

/-- Replace one field's mirror state. -/
def MultiFieldCRDTEngine.setFieldState (m : MultiFieldCRDTEngine) (f : FieldType)
    (st : FieldState) : MultiFieldCRDTEngine :=
  { m with fieldStates := fun g => if g = f then st else m.fieldStates g }

/-- `MultiFieldCRDTEngine.trackOperation`: record the operation in the
field mirror and hand it to the undo/redo manager — local operations
only. -/
def MultiFieldCRDTEngine.trackOperation (m : MultiFieldCRDTEngine) (f : FieldType)
    (operation : CRDTOperation) (now : Nat) : MultiFieldCRDTEngine :=
  if operation.clientId = m.clientId then
    let st := m.fieldStates f
    let m1 := m.setFieldState f { st with operations := st.operations ++ [operation] }
    { m1 with undoRedoManager := m1.undoRedoManager.trackOperation operation now }
  else m

/-- `MultiFieldCRDTEngine.updateFieldState`: refresh the mirror's content
and characters from the field's engine. -/
def MultiFieldCRDTEngine.updateFieldState (m : MultiFieldCRDTEngine) (f : FieldType) :
    MultiFieldCRDTEngine :=
  let e := m.engines f
  let st := m.fieldStates f
  m.setFieldState f { st with content := e.getVisibleContent, characters := e.characters }

/-- `MultiFieldCRDTEngine.insertChar`: delegate to the field's engine,
stamp the returned operation with the field and a creation timestamp, and
track it. -/
def MultiFieldCRDTEngine.insertChar (m : MultiFieldCRDTEngine) (f : FieldType)
    (char : String) (position : Int) (now : Nat) :
    Option CRDTOperation × MultiFieldCRDTEngine :=
  let r := (m.engines f).insertChar char position now
  let fieldOperation := { r.1 with field := f, timestamp := now }
  let m1 := (m.setEngine f r.2).trackOperation f fieldOperation now
  (some fieldOperation, m1)

/-- `MultiFieldCRDTEngine.deleteChar`. -/
def MultiFieldCRDTEngine.deleteChar (m : MultiFieldCRDTEngine) (f : FieldType)
    (position : Int) (now : Nat) : Option CRDTOperation × MultiFieldCRDTEngine :=
  let r := (m.engines f).deleteChar position now
  match r.1 with
  | none => (none, m.setEngine f r.2)
  | some op =>
    let fieldOperation := { op with field := f, timestamp := now }
    let m1 := (m.setEngine f r.2).trackOperation f fieldOperation now
    (some fieldOperation, m1)

/-- `MultiFieldCRDTEngine.applyOperation`: route to the engine named by
the operation's field (all four fields always have an engine), then
refresh the field mirror. -/
def MultiFieldCRDTEngine.applyOperation (m : MultiFieldCRDTEngine)
    (operation : CRDTOperation) : MultiFieldCRDTEngine :=
  let f := operation.field
  let e1 := (m.engines f).applyOperation operation none
  (m.setEngine f e1).updateFieldState f

/-- `MultiFieldCRDTEngine.getFieldContent`. -/
def MultiFieldCRDTEngine.getFieldContent (m : MultiFieldCRDTEngine) (f : FieldType) :
    String :=
  (m.engines f).getVisibleContent

/-- `MultiFieldCRDTEngine.undo`: take the manager's inverse operations and
apply each to the engines. -/
def MultiFieldCRDTEngine.undo (m : MultiFieldCRDTEngine) (f : FieldType) (now : Nat) :
    Option (List CRDTOperation) × MultiFieldCRDTEngine :=
  let r := m.undoRedoManager.undo f now
  let m1 := { m with undoRedoManager := r.2 }
  match r.1 with
  | none => (none, m1)
  | some inverseOperations =>
    (some inverseOperations,
      inverseOperations.foldl (fun acc op => acc.applyOperation op) m1)

/-- `MultiFieldCRDTEngine.redo`. -/
def MultiFieldCRDTEngine.redo (m : MultiFieldCRDTEngine) (f : FieldType) (now : Nat) :
    Option (List CRDTOperation) × MultiFieldCRDTEngine :=
  let r := m.undoRedoManager.redo f now
  let m1 := { m with undoRedoManager := r.2 }
  match r.1 with
  | none => (none, m1)
  | some redoOperations =>
    (some redoOperations,
      redoOperations.foldl (fun acc op => acc.applyOperation op) m1)

/-- `MultiFieldCRDTEngine.finalizeAllBatches`. -/
def MultiFieldCRDTEngine.finalizeAllBatches (m : MultiFieldCRDTEngine) (now : Nat) :
    MultiFieldCRDTEngine :=
  { m with undoRedoManager := m.undoRedoManager.finalizeAllBatches now }

/-! ## Proof-support definitions -/

/-- Replay a list of operations through the remote-delivery path
(`applyOperation` with no locally supplied character), in list order. -/
def applyAll (e : CRDTEngine) (ops : List CRDTOperation) : CRDTEngine :=
  ops.foldl (fun acc op => acc.applyOperation op none) e

/-- The data of a stored character that the visible-content read path
depends on: position, value, tombstone flag. -/
def visTriple (c : CRDTChar) : String × Option String × Bool :=
  (c.position, c.char, c.deleted)

/-- The character triple that a remotely applied insert operation stores. -/
def opTriple (op : CRDTOperation) : String × Option String × Bool :=
  (op.position, op.char, false)

/-- Position comparator lifted to character triples. -/
def tripleCmp (x y : String × Option String × Bool) : Int := posCmp x.1 y.1

/-- The visible-content read path expressed on character triples: drop
tombstones, sort by position, join the values. -/
def contentOfTriples (l : List (String × Option String × Bool)) : String :=
  ((jsSortBy tripleCmp (l.filter (fun t => ¬ t.2.2))).map
    (fun t => t.2.1.getD "")).foldl (· ++ ·) ""

/-- The count of tombstoned characters (the `deletedCharacters` stat). -/
def delCount (l : List (CId × CRDTChar)) : Nat :=
  ((mvalues l).filter (fun c => c.deleted)).length

/-- The inverse operation `generateInverseOperation` builds when the
manager's id counter stands at `k` (see `UndoRedoManager.freshOpId`). -/
def inverseOpAt (userId documentId : String) (seed now k : Nat)
    (operation : CRDTOperation) : CRDTOperation :=
  match operation.type with
  | OperationType.insert =>
    { id := CId.opGen userId seed k
      type := OperationType.delete
      field := operation.field
      position := operation.position
      char := operation.char
      charId := some (CId.undoOf operation.id)
      clientId := userId
      documentId := documentId
      timestamp := now }
  | OperationType.delete =>
    { id := CId.opGen userId seed k
      type := OperationType.insert
      field := operation.field
      position := operation.position
      char := operation.char
      charId := none
      clientId := userId
      documentId := documentId
      timestamp := now }

/-- The list of inverse operations produced by
`generateInverseOperations` from id counter `k` on, one per input
operation in input order (the caller passes the reversed batch). -/
def invListFrom (userId documentId : String) (seed now : Nat) :
    Nat → List CRDTOperation → List CRDTOperation
  | _, [] => []
  | k, op :: rest =>
    inverseOpAt userId documentId seed now k op ::
      invListFrom userId documentId seed now (k + 1) rest

/-- A remote insert operation (counterexample input): client `X` inserts
`"a"` at position `"1.0.X"`. -/
def cexInsertOp : CRDTOperation :=
  { id := CId.raw "i1"
    type := OperationType.insert
    field := FieldType.content
    position := "1.0.X"
    char := some "a"
    charId := none
    clientId := "X"
    documentId := "doc"
    timestamp := 0 }

/-- A remote delete operation (counterexample input): client `X` deletes
that character, referencing the char id `"cX"` its own engine generated
for it. -/
def cexDeleteOp : CRDTOperation :=
  { id := CId.raw "d1"
    type := OperationType.delete
    field := FieldType.content
    position := "1.0.X"
    char := some "a"
    charId := some (CId.raw "cX")
    clientId := "X"
    documentId := "doc"
    timestamp := 1 }

/-- A concrete undo step holding one insert and one delete (witness
input). -/
def c8Step : UndoStep :=
  { id := CId.raw "s"
    operations := [cexInsertOp, cexDeleteOp]
    timestamp := 0
    userId := "A"
    field := FieldType.content
    description := "Mixed operations (2)" }

/-- A concrete manager whose content field holds exactly `c8Step` on its
undo stack (witness input). -/
def c8Manager : UndoRedoManager :=
  { states := fun g =>
      if g = FieldType.content then
        { undoStack := [c8Step]
          redoStack := []
          currentBatch := none
          batchStartTime := none }
      else UndoRedoFieldState.initial
    config := { batchTimeout := 1000, maxUndoSteps := 50, enableBatching := true }
    userId := "A"
    documentId := "doc"
    seed := 5
    opCtr := 0 }

/-- The "hello" scenario engine: a fresh multi-field engine (engine and
manager on distinct entropy streams) after the local user types the five
characters of "hello" at visible indices 0 through 4 of the content
field. -/
def helloTyped : MultiFieldCRDTEngine :=
  ((((((MultiFieldCRDTEngine.init "doc" "A" 0 1).insertChar
    FieldType.content "h" 0 0).2.insertChar
    FieldType.content "e" 1 0).2.insertChar
    FieldType.content "l" 2 0).2.insertChar
    FieldType.content "l" 3 0).2.insertChar
    FieldType.content "o" 4 0).2

/-- The "hello" scenario after the batch is closed and `undo` is called. -/
def helloAfterUndo : MultiFieldCRDTEngine :=
  ((helloTyped.finalizeAllBatches 0).undo FieldType.content 1).2

/-- The "hello" scenario after the subsequent `redo`. -/
def helloAfterRedo : MultiFieldCRDTEngine :=
  (helloAfterUndo.redo FieldType.content 2).2

/-- Witness input for insert-only convergence: client `A` inserts `"x"`
at position `"1.0.A"`. -/
def c1OpA : CRDTOperation :=
  { id := CId.raw "o1"
    type := OperationType.insert
    field := FieldType.content
    position := "1.0.A"
    char := some "x"
    charId := none
    clientId := "A"
    documentId := "doc"
    timestamp := 0 }

/-- Witness input for insert-only convergence: client `B` inserts `"y"`
at position `"2.0.B"`. -/
def c1OpB : CRDTOperation :=
  { id := CId.raw "o2"
    type := OperationType.insert
    field := FieldType.content
    position := "2.0.B"
    char := some "y"
    charId := none
    clientId := "B"
    documentId := "doc"
    timestamp := 1 }

/-! ## Digit rendering and parsing round trip -/

theorem digitChar_toNat (d : Nat) (h : d < 10) : (digitChar d).toNat = 48 + d := by
  interval_cases d <;> decide

theorem isDigitCh_digitChar (d : Nat) (h : d < 10) : isDigitCh (digitChar d) = true := by
  interval_cases d <;> decide

theorem isDigitCh_ne (c : Char) (h : isDigitCh c = true) :
    c ≠ '.' ∧ c ≠ '-' ∧ c ≠ '+' := by
  refine ⟨?_, ?_, ?_⟩ <;>
    · intro he
      subst he
      exact absurd h (by decide)

theorem digitsToNat_concat (l : List Char) (c : Char) :
    digitsToNat (l ++ [c]) = 10 * digitsToNat l + (c.toNat - 48) := by
  unfold digitsToNat
  rw [List.foldl_append]
  rfl

theorem natCharsAux_spec (fuel : Nat) :
    ∀ n, n < 10 ^ fuel → 0 < fuel →
      natCharsAux fuel n ≠ []
      ∧ (∀ c ∈ natCharsAux fuel n, isDigitCh c = true)
      ∧ digitsToNat (natCharsAux fuel n) = n := by
  induction fuel with
  | zero => intro n hn hpos; omega
  | succ fuel ih =>
    intro n hn hpos
    by_cases h10 : n < 10
    · refine ⟨by simp [natCharsAux, h10], ?_, ?_⟩
      · intro c hc
        simp [natCharsAux, h10] at hc
        subst hc
        exact isDigitCh_digitChar n h10
      · simp [natCharsAux, h10, digitsToNat, digitChar_toNat n h10]
    · have hfpos : 0 < fuel := by
        rcases Nat.eq_zero_or_pos fuel with h0 | h
        · subst h0
          simp at hn
          omega
        · exact h
      have hdiv : n / 10 < 10 ^ fuel := by
        rw [Nat.div_lt_iff_lt_mul (by norm_num)]
        calc n < 10 ^ (fuel + 1) := hn
          _ = 10 ^ fuel * 10 := by ring
      obtain ⟨hne, hdig, hval⟩ := ih (n / 10) hdiv hfpos
      have hstep : natCharsAux (fuel + 1) n
          = natCharsAux fuel (n / 10) ++ [digitChar (n % 10)] := by
        simp [natCharsAux, h10]
      refine ⟨by simp [hstep], ?_, ?_⟩
      · intro c hc
        rw [hstep] at hc
        rcases List.mem_append.1 hc with h | h
        · exact hdig c h
        · simp at h
          subst h
          exact isDigitCh_digitChar _ (Nat.mod_lt n (by norm_num))
      · rw [hstep, digitsToNat_concat, hval,
          digitChar_toNat _ (Nat.mod_lt n (by norm_num))]
        omega

theorem natChars_spec (n : Nat) :
    natChars n ≠ []
    ∧ (∀ c ∈ natChars n, isDigitCh c = true)
    ∧ digitsToNat (natChars n) = n :=
  natCharsAux_spec (n + 1) n
    (lt_of_lt_of_le (Nat.lt_pow_self (by norm_num) n)
      (Nat.pow_le_pow_right (by norm_num) (Nat.le_succ n)))
    (Nat.succ_pos n)

theorem jsParseFloat_digits (l : List Char) (hne : l ≠ [])
    (hd : ∀ c ∈ l, isDigitCh c = true) :
    jsParseFloat l = some (digitsToNat l) := by
  obtain ⟨c, cs, rfl⟩ := List.exists_cons_of_ne_nil hne
  have hc := hd c (by simp)
  have htake : (c :: cs).takeWhile isDigitCh = c :: cs :=
    List.takeWhile_eq_self_iff.2 hd
  unfold jsParseFloat
  split
  · rename_i r heq
    rw [List.cons.injEq] at heq
    exact absurd heq.1 (isDigitCh_ne c hc).2.1
  · rename_i r heq
    rw [List.cons.injEq] at heq
    exact absurd heq.1 (isDigitCh_ne c hc).2.2
  · simp only [htake]
    have : (c :: cs).isEmpty = false := rfl
    simp [this]

theorem intChars_ne_nil (z : Int) : intChars z ≠ [] := by
  unfold intChars
  split
  · simp
  · exact (natChars_spec z.natAbs).1

theorem jsParseFloat_neg_digits (l : List Char) (hne : l ≠ [])
    (hd : ∀ c ∈ l, isDigitCh c = true) :
    jsParseFloat ('-' :: l) = some (-(digitsToNat l : Int)) := by
  obtain ⟨c, cs, rfl⟩ := List.exists_cons_of_ne_nil hne
  have htake : (c :: cs).takeWhile isDigitCh = c :: cs :=
    List.takeWhile_eq_self_iff.2 hd
  unfold jsParseFloat
  simp only [htake]
  have hemp : (c :: cs).isEmpty = false := rfl
  simp [hemp]

theorem jsParseFloat_intChars (z : Int) : jsParseFloat (intChars z) = some z := by
  obtain ⟨hne, hdig, hval⟩ := natChars_spec z.natAbs
  by_cases hz : z < 0
  · have h1 : intChars z = '-' :: natChars z.natAbs := by simp [intChars, hz]
    rw [h1, jsParseFloat_neg_digits _ hne hdig, hval]
    refine congrArg some ?_
    omega
  · have h1 : intChars z = natChars z.natAbs := by simp [intChars, hz]
    rw [h1, jsParseFloat_digits _ hne hdig, hval]
    refine congrArg some ?_
    omega

theorem not_dot_mem_intChars (z : Int) : '.' ∉ intChars z := by
  intro hmem
  have : ∀ c ∈ intChars z, c ≠ '.' := by
    intro c hc
    unfold intChars at hc
    split at hc
    · rcases List.mem_cons.1 hc with h | h
      · subst h; decide
      · exact ((isDigitCh_ne c ((natChars_spec z.natAbs).2.1 c h)).1)
    · exact ((isDigitCh_ne c ((natChars_spec z.natAbs).2.1 c hc)).1)
  exact this '.' hmem rfl

/-! ## Splitting lemmas -/

theorem splitCh_ne_nil (sep : Char) (l : List Char) : splitCh sep l ≠ [] := by
  cases l with
  | nil => simp [splitCh]
  | cons c cs =>
    unfold splitCh
    by_cases h : c = sep
    · simp [h]
    · simp only [h, if_false]
      split <;> simp

theorem splitCh_not_mem (sep : Char) (l : List Char) (h : sep ∉ l) :
    splitCh sep l = [l] := by
  induction l with
  | nil => rfl
  | cons c cs ih =>
    have hc : ¬ c = sep := fun he => h (by simp [he])
    have hcs : sep ∉ cs := fun hm => h (by simp [hm])
    unfold splitCh
    rw [ih hcs]
    simp [hc]

theorem splitCh_append (sep : Char) (l rest : List Char) (h : sep ∉ l) :
    splitCh sep (l ++ sep :: rest) = l :: splitCh sep rest := by
  induction l with
  | nil =>
    show splitCh sep (sep :: rest) = [] :: splitCh sep rest
    conv_lhs => rw [splitCh]
    simp
  | cons c cs ih =>
    have hc : ¬ c = sep := fun he => h (by simp [he])
    have hcs : sep ∉ cs := fun hm => h (by simp [hm])
    simp only [List.cons_append]
    conv_lhs => rw [splitCh]
    rw [ih hcs]
    simp [hc]

/-- The parts of a generated boundary key `<int>.0.<clientId>`. -/
theorem posParts_boundary_key (z : Int) (cd : List Char) :
    splitCh '.' (intChars z ++ '.' :: '0' :: '.' :: cd)
      = intChars z :: ['0'] :: splitCh '.' cd := by
  rw [splitCh_append '.' (intChars z) _ (not_dot_mem_intChars z)]
  have : ('0' : Char) :: '.' :: cd = ['0'] ++ '.' :: cd := rfl
  rw [this, splitCh_append '.' ['0'] cd (by decide)]

/-! ## Position algebra lemmas -/

theorem posNum_some_ne_empty (s : String) (q : Int) (h : posNum s = some q) :
    s ≠ "" := by
  intro he
  subst he
  rw [show posNum "" = none from rfl] at h
  exact Option.noConfusion h

theorem jsFalsy_some_of_ne (s : String) (h : s ≠ "") : jsFalsy (some s) = false := by
  simp [jsFalsy, h]

/-- Comparing a generated boundary key `<z>.0.<clientId>` against a
position whose numeric part parses as `q ≠ z` yields their difference. -/
theorem comparePositions_boundary (z : Int) (cd : List Char) (b : String) (q : Int)
    (hb : posNum b = some q) (hzq : z ≠ q) :
    comparePositions (String.mk (intChars z ++ '.' :: '0' :: '.' :: cd)) b
      = some (z - q) := by
  unfold posNum at hb
  have hparts : posParts (String.mk (intChars z ++ '.' :: '0' :: '.' :: cd))
      = intChars z :: ['0'] :: splitCh '.' cd := by
    unfold posParts
    exact posParts_boundary_key z cd
  unfold comparePositions
  rw [hparts]
  have hcond : ¬ ((intChars z :: ['0'] :: splitCh '.' cd).length = 1
      ∧ (posParts b).length = 1) := by
    simp
  rw [if_neg hcond]
  rw [show headPart (intChars z :: ['0'] :: splitCh '.' cd) = intChars z from rfl]
  rw [jsParseFloat_intChars z, hb]
  simp [hzq]

/-- C5 (amended): with only `next` absent, `generatePosition` increments
the parsed integer part of `prev`, resets the fractional part, appends the
client id, and the key orders strictly *greater* than `prev`; with only
`prev` absent it mirrors this by decrementing, yielding a key strictly
*less* than `next`. -/
theorem C5_boundary_amended (prev next clientId : String) (p n : Int)
    (hp : posNum prev = some p) (hn : posNum next = some n) :
    (generatePosition (some prev) none clientId
        = String.mk (intChars (p + 1) ++ '.' :: '0' :: '.' :: clientId.data)
      ∧ 0 < posCmp (generatePosition (some prev) none clientId) prev)
    ∧ (generatePosition none (some next) clientId
        = String.mk (intChars (n - 1) ++ '.' :: '0' :: '.' :: clientId.data)
      ∧ posCmp (generatePosition none (some next) clientId) next < 0) := by
  have hpe := posNum_some_ne_empty prev p hp
  have hne := posNum_some_ne_empty next n hn
  have hafter : generatePosition (some prev) none clientId
      = String.mk (intChars (p + 1) ++ '.' :: '0' :: '.' :: clientId.data) := by
    unfold generatePosition
    rw [jsFalsy_some_of_ne prev hpe]
    simp only [jsFalsy, Bool.false_eq_true, false_and, if_false, if_true]
    unfold generateAfter
    unfold posNum at hp
    rw [show (some prev).getD "" = prev from rfl, hp]
    rfl
  have hbefore : generatePosition none (some next) clientId
      = String.mk (intChars (n - 1) ++ '.' :: '0' :: '.' :: clientId.data) := by
    unfold generatePosition
    rw [jsFalsy_some_of_ne next hne]
    simp only [jsFalsy, Bool.false_eq_true, and_false, if_false, if_true]
    unfold generateBefore
    unfold posNum at hn
    rw [show (some next).getD "" = next from rfl, hn]
    rfl
  refine ⟨⟨hafter, ?_⟩, ⟨hbefore, ?_⟩⟩
  · rw [hafter]
    unfold posCmp
    rw [comparePositions_boundary (p + 1) clientId.data prev p hp (by omega)]
    simp
  · rw [hbefore]
    unfold posCmp
    rw [comparePositions_boundary (n - 1) clientId.data next n hn (by omega)]
    simp

/-- Witness for `C5_boundary_amended` at `prev = next = "1.0.A"`. -/
theorem C5_boundary_amended_witness :
    (generatePosition (some "1.0.A") none "B"
        = String.mk (intChars (1 + 1) ++ '.' :: '0' :: '.' :: "B".data)
      ∧ 0 < posCmp (generatePosition (some "1.0.A") none "B") "1.0.A")
    ∧ (generatePosition none (some "1.0.A") "B"
        = String.mk (intChars (1 - 1) ++ '.' :: '0' :: '.' :: "B".data)
      ∧ posCmp (generatePosition none (some "1.0.A") "B") "1.0.A" < 0) :=
  C5_boundary_amended "1.0.A" "1.0.A" "B" 1 1 (by decide) (by decide)

/-- C6 (amended): when the parsed integer parts satisfy `p < n`,
`generatePosition(prev, next, clientId)` returns the rendered midpoint
`p + (n − p)/2` (a half-integer, rendered by `renderHalf` of its double)
with the client id appended, and that midpoint lies strictly between `p`
and `n`.  (When the integer parts tie, the midpoint equals them and the
key need not order between the two — see the counterexample.) -/
theorem C6_between_amended (prev next clientId : String) (p n : Int)
    (hp : posNum prev = some p) (hn : posNum next = some n) (hlt : p < n) :
    generatePosition (some prev) (some next) clientId
      = String.mk (renderHalf (p + n) ++ '.' :: clientId.data)
    ∧ (p : ℚ) < (p : ℚ) + ((n : ℚ) - (p : ℚ)) / 2
    ∧ (p : ℚ) + ((n : ℚ) - (p : ℚ)) / 2 < (n : ℚ) := by
  have hpe := posNum_some_ne_empty prev p hp
  have hne := posNum_some_ne_empty next n hn
  have hcast : (p : ℚ) < (n : ℚ) := by exact_mod_cast hlt
  refine ⟨?_, by linarith, by linarith⟩
  unfold generatePosition
  rw [jsFalsy_some_of_ne prev hpe, jsFalsy_some_of_ne next hne]
  simp only [Bool.false_eq_true, false_and, if_false]
  unfold generateBetween
  unfold posNum at hp hn
  rw [show (some prev).getD "" = prev from rfl, show (some next).getD "" = next from rfl,
    hp, hn]

/-- Witness for `C6_between_amended` at `prev = "1.0.A"`, `next = "3.0.B"`. -/
theorem C6_between_amended_witness :
    generatePosition (some "1.0.A") (some "3.0.B") "C"
      = String.mk (renderHalf (1 + 3) ++ '.' :: "C".data)
    ∧ ((1 : Int) : ℚ) < ((1 : Int) : ℚ) + (((3 : Int) : ℚ) - ((1 : Int) : ℚ)) / 2
    ∧ ((1 : Int) : ℚ) + (((3 : Int) : ℚ) - ((1 : Int) : ℚ)) / 2 < ((3 : Int) : ℚ) :=
  C6_between_amended "1.0.A" "3.0.B" "C" 1 3 (by decide) (by decide) (by decide)

/-! ## Antisymmetry of the position comparator -/

theorem lexCmp_antisym : ∀ a b : List Char, lexCmp a b = - lexCmp b a := by
  intro a
  induction a with
  | nil => intro b; cases b <;> simp [lexCmp]
  | cons c cs ih =>
    intro b
    cases b with
    | nil => simp [lexCmp]
    | cons d ds =>
      by_cases h1 : c < d
      · have h2 : ¬ d < c := lt_asymm h1
        simp [lexCmp, h1, h2]
      · by_cases h2 : d < c
        · simp [lexCmp, h1, h2]
        · simp [lexCmp, h1, h2, ih ds]

theorem jsNumSub_antisym (x y : Option Int) :
    jsNumSub x y = Option.map (fun z => -z) (jsNumSub y x) := by
  cases x <;> cases y <;> simp [jsNumSub]

theorem comparePositions_antisym (a b : String) :
    comparePositions a b = Option.map (fun z => -z) (comparePositions b a) := by
  unfold comparePositions
  simp only []
  by_cases hc : (posParts a).length = 1 ∧ (posParts b).length = 1
  · rw [if_pos hc, if_pos (And.intro hc.2 hc.1)]
    exact jsNumSub_antisym _ _
  · rw [if_neg hc,
      if_neg (show ¬ ((posParts b).length = 1 ∧ (posParts a).length = 1) from
        fun h => hc (And.intro h.2 h.1))]
    generalize jsParseFloat (headPart (posParts a)) = pa
    generalize jsParseFloat (headPart (posParts b)) = pb
    rcases pa with _ | x <;> rcases pb with _ | y
    · rfl
    · rfl
    · rfl
    · by_cases hxy : x = y
      · subst hxy
        simp only [ne_eq, not_true_eq_false, if_false]
        by_cases hAs : 3 ≤ (posParts a).length
            ∧ (jsParseFloat (partAt (posParts a) 1)).isSome = true <;>
          by_cases hBs : 3 ≤ (posParts b).length
              ∧ (jsParseFloat (partAt (posParts b) 1)).isSome = true <;>
            simp [hAs, hBs, lexCmp_antisym a.data b.data]
      · have hyx : ¬ y = x := fun h => hxy h.symm
        simp only [ne_eq, hxy, hyx, not_false_eq_true, if_true, Option.map_some]
        refine congrArg some ?_
        show x - y = -(y - x)
        omega

theorem posCmp_antisym (a b : String) : posCmp a b = - posCmp b a := by
  unfold posCmp
  rw [comparePositions_antisym a b]
  rcases comparePositions b a with _ | z <;> simp

/-! ## Generic lemmas about the modelled stable sort -/

theorem sortInsertJs_perm {α : Type} (cmp : α → α → Int) (a : α) :
    ∀ l, (sortInsertJs cmp a l).Perm (a :: l) := by
  intro l
  induction l with
  | nil => exact List.Perm.refl _
  | cons b t ih =>
    unfold sortInsertJs
    by_cases h : cmp b a < 0
    · rw [if_pos h]
      exact (ih.cons b).trans (List.Perm.swap a b t)
    · rw [if_neg h]

theorem jsSortBy_perm {α : Type} (cmp : α → α → Int) :
    ∀ l, (jsSortBy cmp l).Perm l := by
  intro l
  induction l with
  | nil => exact List.Perm.refl _
  | cons a t ih =>
    show (sortInsertJs cmp a (jsSortBy cmp t)).Perm (a :: t)
    exact (sortInsertJs_perm cmp a (jsSortBy cmp t)).trans (ih.cons a)

theorem mem_sortInsertJs {α : Type} (cmp : α → α → Int) (a x : α) (l : List α)
    (h : x ∈ sortInsertJs cmp a l) : x = a ∨ x ∈ l := by
  have := (sortInsertJs_perm cmp a l).mem_iff.1 h
  simpa using this

theorem sortInsertJs_pairwise {α : Type} (cmp : α → α → Int)
    (hanti : ∀ x y, cmp x y = - cmp y x) (a : α) :
    ∀ l, List.Pairwise (fun x y => ¬ cmp y x < 0) l →
      (∀ x ∈ a :: l, ∀ y ∈ a :: l, ∀ z ∈ a :: l,
        cmp x y < 0 → cmp y z < 0 → cmp x z < 0) →
      (∀ x ∈ a :: l, ∀ y ∈ a :: l, cmp x y = 0 → x = y) →
      List.Pairwise (fun x y => ¬ cmp y x < 0) (sortInsertJs cmp a l) := by
  intro l
  induction l with
  | nil =>
    intro _ _ _
    simp [sortInsertJs]
  | cons b t ih =>
    intro hpw htrans htie
    rw [List.pairwise_cons] at hpw
    unfold sortInsertJs
    by_cases h : cmp b a < 0
    · rw [if_pos h]
      refine List.Pairwise.cons ?_ ?_
      · intro y hy
        rcases mem_sortInsertJs cmp a y t hy with rfl | hyt
        · have := hanti b y
          omega
        · exact hpw.1 y hyt
      · have hlift : ∀ x, x ∈ a :: t → x ∈ a :: b :: t := by
          intro x hx
          rcases List.mem_cons.1 hx with rfl | hx
          · simp
          · simp [hx]
        refine ih hpw.2 ?_ ?_
        · intro x hx y hy z hz
          exact htrans x (hlift x hx) y (hlift y hy) z (hlift z hz)
        · intro x hx y hy
          exact htie x (hlift x hx) y (hlift y hy)
    · rw [if_neg h]
      refine List.Pairwise.cons ?_ (List.Pairwise.cons hpw.1 hpw.2)
      intro y hy
      rcases List.mem_cons.1 hy with rfl | hyt
      · exact h
      · intro hya
        rcases lt_trichotomy (cmp y b) 0 with hyb | hyb | hyb
        · exact hpw.1 y hyt hyb
        · have : y = b := htie y (by simp [hyt]) b (by simp) hyb
          subst this
          exact h hya
        · have hby : cmp b y < 0 := by
            have := hanti b y
            omega
          exact h (htrans b (by simp) y (by simp [hyt]) a (by simp) hby hya)

theorem jsSortBy_pairwise {α : Type} (cmp : α → α → Int)
    (hanti : ∀ x y, cmp x y = - cmp y x) :
    ∀ l, (∀ x ∈ l, ∀ y ∈ l, ∀ z ∈ l, cmp x y < 0 → cmp y z < 0 → cmp x z < 0) →
      (∀ x ∈ l, ∀ y ∈ l, cmp x y = 0 → x = y) →
      List.Pairwise (fun x y => ¬ cmp y x < 0) (jsSortBy cmp l) := by
  intro l
  induction l with
  | nil => intro _ _; simp [jsSortBy]
  | cons a t ih =>
    intro htrans htie
    show List.Pairwise _ (sortInsertJs cmp a (jsSortBy cmp t))
    have hsub : ∀ x ∈ a :: jsSortBy cmp t, x ∈ a :: t := by
      intro x hx
      rcases List.mem_cons.1 hx with rfl | hx
      · simp
      · exact List.mem_cons_of_mem a ((jsSortBy_perm cmp t).mem_iff.1 hx)
    refine sortInsertJs_pairwise cmp hanti a (jsSortBy cmp t) ?_ ?_ ?_
    · refine ih ?_ ?_
      · intro x hx y hy z hz
        exact htrans x (List.mem_cons_of_mem a hx) y (List.mem_cons_of_mem a hy)
          z (List.mem_cons_of_mem a hz)
      · intro x hx y hy
        exact htie x (List.mem_cons_of_mem a hx) y (List.mem_cons_of_mem a hy)
    · intro x hx y hy z hz
      exact htrans x (hsub x hx) y (hsub y hy) z (hsub z hz)
    · intro x hx y hy
      exact htie x (hsub x hx) y (hsub y hy)

theorem eq_of_perm_of_pairwise {α : Type} (S : α → α → Prop) :
    ∀ (l1 l2 : List α), l1.Perm l2 →
      (∀ x ∈ l1, ∀ y ∈ l1, S x y → S y x → x = y) →
      List.Pairwise S l1 → List.Pairwise S l2 → l1 = l2 := by
  intro l1
  induction l1 with
  | nil =>
    intro l2 hperm _ _ _
    exact (hperm.nil_eq).symm ▸ rfl
  | cons a t1 ih =>
    intro l2 hperm hantis hpw1 hpw2
    cases l2 with
    | nil => exact absurd hperm.symm.nil_eq (by simp)
    | cons b t2 =>
      rw [List.pairwise_cons] at hpw1 hpw2
      have hab : a = b := by
        by_cases he : a = b
        · exact he
        · have ha2 : a ∈ b :: t2 := hperm.mem_iff.1 (by simp)
          have hb1 : b ∈ a :: t1 := hperm.symm.mem_iff.1 (by simp)
          have ha2t : a ∈ t2 := by
            rcases List.mem_cons.1 ha2 with h | h
            · exact absurd h he
            · exact h
          have hb1t : b ∈ t1 := by
            rcases List.mem_cons.1 hb1 with h | h
            · exact absurd h.symm he
            · exact h
          exact hantis a (by simp) b (by simp [hb1t])
            (hpw1.1 b hb1t) (hpw2.1 a ha2t)
      subst hab
      have htails : t1.Perm t2 := hperm.cons_inv
      have ht : t1 = t2 := by
        refine ih t2 htails ?_ hpw1.2 hpw2.2
        intro x hx y hy
        exact hantis x (List.mem_cons_of_mem a hx) y (List.mem_cons_of_mem a hy)
      rw [ht]

theorem jsSortBy_eq_of_perm {α : Type} (cmp : α → α → Int)
    (hanti : ∀ x y, cmp x y = - cmp y x) (l1 l2 : List α) (hperm : l1.Perm l2)
    (htrans : ∀ x ∈ l1, ∀ y ∈ l1, ∀ z ∈ l1, cmp x y < 0 → cmp y z < 0 → cmp x z < 0)
    (htie : ∀ x ∈ l1, ∀ y ∈ l1, cmp x y = 0 → x = y) :
    jsSortBy cmp l1 = jsSortBy cmp l2 := by
  refine eq_of_perm_of_pairwise (fun x y => ¬ cmp y x < 0) _ _
    (((jsSortBy_perm cmp l1).trans hperm).trans (jsSortBy_perm cmp l2).symm)
    ?_ ?_ ?_
  · intro x hx y hy hxy hyx
    have hx1 : x ∈ l1 := (jsSortBy_perm cmp l1).mem_iff.1 hx
    have hy1 : y ∈ l1 := (jsSortBy_perm cmp l1).mem_iff.1 hy
    refine htie x hx1 y hy1 ?_
    have := hanti x y
    omega
  · exact jsSortBy_pairwise cmp hanti l1 htrans htie
  · refine jsSortBy_pairwise cmp hanti l2 ?_ ?_
    · intro x hx y hy z hz
      exact htrans x (hperm.mem_iff.2 hx) y (hperm.mem_iff.2 hy) z (hperm.mem_iff.2 hz)
    · intro x hx y hy
      exact htie x (hperm.mem_iff.2 hx) y (hperm.mem_iff.2 hy)

theorem sortInsertJs_map {α β : Type} (f : α → β) (cmpA : α → α → Int)
    (cmpB : β → β → Int) (hcomm : ∀ x y, cmpA x y = cmpB (f x) (f y)) (a : α) :
    ∀ l, (sortInsertJs cmpA a l).map f = sortInsertJs cmpB (f a) (l.map f) := by
  intro l
  induction l with
  | nil => rfl
  | cons b t ih =>
    show (if cmpA b a < 0 then b :: sortInsertJs cmpA a t else a :: b :: t).map f = _
    rw [show sortInsertJs cmpB (f a) ((b :: t).map f)
        = if cmpB (f b) (f a) < 0 then f b :: sortInsertJs cmpB (f a) (t.map f)
          else f a :: f b :: t.map f from rfl]
    rw [← hcomm b a]
    by_cases h : cmpA b a < 0
    · rw [if_pos h, if_pos h, List.map_cons, ih]
    · rw [if_neg h, if_neg h]
      rfl

theorem jsSortBy_map {α β : Type} (f : α → β) (cmpA : α → α → Int)
    (cmpB : β → β → Int) (hcomm : ∀ x y, cmpA x y = cmpB (f x) (f y)) :
    ∀ l, (jsSortBy cmpA l).map f = jsSortBy cmpB (l.map f) := by
  intro l
  induction l with
  | nil => rfl
  | cons a t ih =>
    show (sortInsertJs cmpA a (jsSortBy cmpA t)).map f = _
    rw [sortInsertJs_map f cmpA cmpB hcomm a, ih]
    rfl

/-! ## JS Map lemmas -/

theorem mget_nil (k : CId) : mget [] k = none := rfl

theorem mget_cons (kv : CId × CRDTChar) (rest : List (CId × CRDTChar)) (k2 : CId) :
    mget (kv :: rest) k2 = if kv.1 = k2 then some kv.2 else mget rest k2 := by
  by_cases h : kv.1 = k2 <;> simp [mget, List.find?, h]

theorem mset_cons_of_eq (kv : CId × CRDTChar) (rest : List (CId × CRDTChar))
    (k : CId) (v : CRDTChar) (h : kv.1 = k) :
    mset (kv :: rest) k v = (k, v) :: rest := by
  simp [mset, h]

theorem mset_cons_of_ne (kv : CId × CRDTChar) (rest : List (CId × CRDTChar))
    (k : CId) (v : CRDTChar) (h : ¬ kv.1 = k) :
    mset (kv :: rest) k v = kv :: mset rest k v := by
  simp [mset, h]

theorem mset_of_mget_none (k : CId) (v : CRDTChar) :
    ∀ l, mget l k = none → mset l k v = l ++ [(k, v)] := by
  intro l
  induction l with
  | nil => intro _; rfl
  | cons kv rest ih =>
    intro h
    rw [mget_cons] at h
    by_cases hk : kv.1 = k
    · rw [if_pos hk] at h
      exact Option.noConfusion h
    · rw [if_neg hk] at h
      rw [mset_cons_of_ne kv rest k v hk, ih h]
      rfl

theorem mget_mset_self (k : CId) (v : CRDTChar) :
    ∀ l, mget (mset l k v) k = some v := by
  intro l
  induction l with
  | nil => simp [mset, mget_cons]
  | cons kv rest ih =>
    by_cases hk : kv.1 = k
    · rw [mset_cons_of_eq kv rest k v hk, mget_cons]
      simp
    · rw [mset_cons_of_ne kv rest k v hk, mget_cons, if_neg hk, ih]

theorem mget_mset_ne (k k2 : CId) (v : CRDTChar) (hne : k2 ≠ k) :
    ∀ l, mget (mset l k v) k2 = mget l k2 := by
  intro l
  induction l with
  | nil =>
    show mget [(k, v)] k2 = mget [] k2
    rw [mget_cons, if_neg (Ne.symm hne)]
  | cons kv rest ih =>
    by_cases hk : kv.1 = k
    · rw [mset_cons_of_eq kv rest k v hk, mget_cons, mget_cons,
        if_neg (Ne.symm hne), if_neg (fun h => hne (h.symm.trans hk))]
    · rw [mset_cons_of_ne kv rest k v hk, mget_cons, mget_cons, ih]

theorem length_le_mset (k : CId) (v : CRDTChar) :
    ∀ l, l.length ≤ (mset l k v).length := by
  intro l
  induction l with
  | nil => simp [mset]
  | cons kv rest ih =>
    by_cases hk : kv.1 = k
    · rw [mset_cons_of_eq kv rest k v hk]
      simp
    · rw [mset_cons_of_ne kv rest k v hk]
      simpa using ih

theorem mget_isSome_mset (k k2 : CId) (v : CRDTChar)
    (l : List (CId × CRDTChar)) (h : (mget l k2).isSome) :
    (mget (mset l k v) k2).isSome := by
  by_cases hk : k2 = k
  · subst hk
    simp [mget_mset_self]
  · rwa [mget_mset_ne k k2 v hk]

theorem mget_append_none (k : CId) (l1 l2 : List (CId × CRDTChar))
    (h : mget l1 k = none) : mget (l1 ++ l2) k = mget l2 k := by
  induction l1 with
  | nil => simp
  | cons kv rest ih =>
    rw [mget_cons] at h
    by_cases hk : kv.1 = k
    · rw [if_pos hk] at h
      exact Option.noConfusion h
    · rw [if_neg hk] at h
      rw [List.cons_append, mget_cons, if_neg hk]
      exact ih h

/-! ## Basic lemmas about the engine -/

theorem applyInsert_operations (e : CRDTEngine) (op : CRDTOperation)
    (ch : Option CRDTChar) : (e.applyInsert op ch).operations = e.operations := by
  cases ch <;> rfl

theorem applyDelete_operations (e : CRDTEngine) (op : CRDTOperation) :
    (e.applyDelete op).operations = e.operations := by
  unfold CRDTEngine.applyDelete
  rcases h1 : mget e.characters (op.charId.getD CId.undef) with _ | c
  · rcases h2 : e.characters.find?
        (fun kv => kv.2.position == op.position && kv.2.char == op.char) with _ | kv
    · simp [h1, h2]
    · simp [h1, h2]
  · simp [h1]

theorem applyOperation_of_dup (e : CRDTEngine) (op : CRDTOperation)
    (ch : Option CRDTChar) (h : e.operations.any (fun o => o.id = op.id) = true) :
    e.applyOperation op ch = e := by
  unfold CRDTEngine.applyOperation
  rw [h]
  simp

theorem applyOperation_operations_of_fresh (e : CRDTEngine) (op : CRDTOperation)
    (ch : Option CRDTChar) (h : e.operations.any (fun o => o.id = op.id) = false) :
    (e.applyOperation op ch).operations = e.operations ++ [op] := by
  unfold CRDTEngine.applyOperation
  rw [h]
  simp only [Bool.false_eq_true, if_false]
  cases hty : op.type <;>
    simp [hty, applyInsert_operations, applyDelete_operations]

/-- C2: applying the same operation a second time (same id) is a no-op:
the engine state after two applications equals the state after one, for
every engine state, every operation, and either delivery path. -/
theorem C2_apply_idempotent (e : CRDTEngine) (op : CRDTOperation)
    (ch1 ch2 : Option CRDTChar) :
    (e.applyOperation op ch1).applyOperation op ch2 = e.applyOperation op ch1 := by
  by_cases h : e.operations.any (fun o => o.id = op.id) = true
  · rw [applyOperation_of_dup e op ch1 h, applyOperation_of_dup e op ch2 h]
  · have h0 : e.operations.any (fun o => o.id = op.id) = false := by
      simpa using h
    have h1 : (e.applyOperation op ch1).operations = e.operations ++ [op] :=
      applyOperation_operations_of_fresh e op ch1 h0
    have h2 : (e.applyOperation op ch1).operations.any (fun o => o.id = op.id) = true := by
      rw [h1, List.any_append]
      simp
    exact applyOperation_of_dup _ op ch2 h2

theorem applyOperation_characters_insert (e : CRDTEngine) (op : CRDTOperation)
    (c : CRDTChar) (h : e.operations.any (fun o => o.id = op.id) = false)
    (hty : op.type = OperationType.insert) :
    (e.applyOperation op (some c)).characters = mset e.characters c.id c := by
  unfold CRDTEngine.applyOperation
  rw [h]
  simp [hty, CRDTEngine.applyInsert]

/-- C7 (amended): a delete request at a visible index outside the current
visible range returns no operation and leaves the engine unchanged; an
insert request at such an index is *not* rejected — it returns an insert
operation, adds one character to the map, and appends the operation to
the log (the generated-id freshness hypotheses say the engine has not yet
used its next id draws, which holds of every reachable state). -/
theorem C7_invalid_index_amended (e : CRDTEngine) (i : Int) (ch : String) (now : Nat)
    (hout : i < 0 ∨ (e.getSortedVisibleChars.length : Int) ≤ i)
    (hopfresh : e.operations.any
      (fun o => o.id = CId.opGen e.clientId e.seed e.opCtr) = false)
    (hcharfresh : mget e.characters (CId.charGen e.clientId e.seed e.charCtr) = none) :
    e.deleteChar i now = (none, e)
    ∧ (e.insertChar ch i now).1.type = OperationType.insert
    ∧ (e.insertChar ch i now).2.characters.length = e.characters.length + 1
    ∧ (e.insertChar ch i now).2.operations
        = e.operations ++ [(e.insertChar ch i now).1] := by
  refine ⟨?_, rfl, ?_, ?_⟩
  · unfold CRDTEngine.deleteChar
    rw [if_pos hout]
  · show ((({ e with charCtr := e.charCtr + 1, opCtr := e.opCtr + 1} :
        CRDTEngine).applyOperation _ (some _)).characters).length = _
    rw [applyOperation_characters_insert _ _ _ hopfresh rfl]
    show (mset e.characters (CId.charGen e.clientId e.seed e.charCtr) _).length = _
    rw [mset_of_mget_none _ _ _ hcharfresh]
    simp
  · show (({ e with charCtr := e.charCtr + 1, opCtr := e.opCtr + 1} :
        CRDTEngine).applyOperation _ (some _)).operations = _
    rw [applyOperation_operations_of_fresh _ _ _ hopfresh]
    rfl

/-- Witness for `C7_invalid_index_amended`: the empty engine and the
out-of-range index 5. -/
theorem C7_invalid_index_amended_witness :
    (CRDTEngine.init "doc" "A" 0).deleteChar 5 0 = (none, CRDTEngine.init "doc" "A" 0)
    ∧ ((CRDTEngine.init "doc" "A" 0).insertChar "a" 5 0).1.type = OperationType.insert
    ∧ ((CRDTEngine.init "doc" "A" 0).insertChar "a" 5 0).2.characters.length
        = (CRDTEngine.init "doc" "A" 0).characters.length + 1
    ∧ ((CRDTEngine.init "doc" "A" 0).insertChar "a" 5 0).2.operations
        = (CRDTEngine.init "doc" "A" 0).operations
          ++ [((CRDTEngine.init "doc" "A" 0).insertChar "a" 5 0).1] :=
  C7_invalid_index_amended (CRDTEngine.init "doc" "A" 0) 5 "a" 0
    (Or.inr (by decide)) (by decide) (by decide)

/-! ## Tombstone-count and `markDeleted` lemmas -/

theorem getStats_deletedCharacters (e : CRDTEngine) :
    e.getStats.deletedCharacters = delCount e.characters := rfl

theorem delCount_cons (kv : CId × CRDTChar) (rest : List (CId × CRDTChar)) :
    delCount (kv :: rest) = (if kv.2.deleted = true then 1 else 0) + delCount rest := by
  by_cases h : kv.2.deleted = true <;>
    simp [delCount, mvalues, List.filter, h, Nat.add_comm]

theorem delCount_append (l1 l2 : List (CId × CRDTChar)) :
    delCount (l1 ++ l2) = delCount l1 + delCount l2 := by
  simp [delCount, mvalues, List.filter_append]

theorem delCount_mset_deleted (k : CId) (v : CRDTChar) (hv : v.deleted = true) :
    ∀ l, delCount l ≤ delCount (mset l k v) := by
  intro l
  induction l with
  | nil => exact Nat.zero_le _
  | cons kv rest ih =>
    by_cases hk : kv.1 = k
    · rw [mset_cons_of_eq kv rest k v hk, delCount_cons, delCount_cons]
      simp [hv]
      split <;> omega
    · rw [mset_cons_of_ne kv rest k v hk, delCount_cons, delCount_cons]
      omega

theorem delCount_mset_fresh (k : CId) (v : CRDTChar) (l : List (CId × CRDTChar))
    (h : mget l k = none) (hv : v.deleted = false) :
    delCount (mset l k v) = delCount l := by
  rw [mset_of_mget_none k v l h, delCount_append]
  simp [delCount, mvalues, List.filter, hv]

theorem markDeleted_length (l : List (CId × CRDTChar)) (k : CId) (c : CRDTChar) :
    l.length ≤ (markDeleted l k c).length :=
  le_trans (length_le_mset k _ l) (length_le_mset _ _ _)

theorem markDeleted_isSome (l : List (CId × CRDTChar)) (k : CId) (c : CRDTChar)
    (k2 : CId) (h : (mget l k2).isSome) : (mget (markDeleted l k c) k2).isSome :=
  mget_isSome_mset _ _ _ _ (mget_isSome_mset _ _ _ _ h)

theorem markDeleted_delCount (l : List (CId × CRDTChar)) (k : CId) (c : CRDTChar) :
    delCount l ≤ delCount (markDeleted l k c) :=
  le_trans (delCount_mset_deleted k _ rfl l) (delCount_mset_deleted _ _ rfl _)

theorem markDeleted_mget (l : List (CId × CRDTChar)) (k : CId) (c : CRDTChar)
    (hcid : c.id = k) (k2 : CId) :
    mget (markDeleted l k c) k2
      = if k2 = k then some { c with deleted := true } else mget l k2 := by
  unfold markDeleted
  by_cases h : k2 = k
  · subst h
    rw [if_pos rfl]
    have : ({ c with deleted := true } : CRDTChar).id = k2 := hcid
    rw [this, mget_mset_self]
  · rw [if_neg h]
    have h2 : k2 ≠ ({ c with deleted := true } : CRDTChar).id := by
      rw [show ({ c with deleted := true } : CRDTChar).id = k from hcid]
      exact h
    rw [mget_mset_ne _ _ _ h2, mget_mset_ne _ _ _ h]

theorem mget_of_mem_nodup (l : List (CId × CRDTChar)) (k : CId) (v : CRDTChar)
    (hmem : (k, v) ∈ l) (hnodup : (l.map (fun kv => kv.1)).Nodup) :
    mget l k = some v := by
  induction l with
  | nil => exact absurd hmem (List.not_mem_nil _)
  | cons kv rest ih =>
    rw [List.map_cons, List.nodup_cons] at hnodup
    rcases List.mem_cons.1 hmem with h | h
    · subst h
      rw [mget_cons, if_pos rfl]
    · have hk : kv.1 ≠ k := by
        intro he
        exact hnodup.1 (he ▸ (List.mem_map.2 ⟨(k, v), h, rfl⟩))
      rw [mget_cons, if_neg hk]
      exact ih h hnodup.2

theorem mget_append_left (k : CId) (v : CRDTChar) (l1 l2 : List (CId × CRDTChar))
    (h : mget l1 k = some v) : mget (l1 ++ l2) k = some v := by
  induction l1 with
  | nil => exact absurd h (by simp [mget_nil])
  | cons kv rest ih =>
    rw [mget_cons] at h
    rw [List.cons_append, mget_cons]
    by_cases hk : kv.1 = k
    · rwa [if_pos hk] at h ⊢
    · rw [if_neg hk] at h ⊢
      exact ih h

/-! ## `applyDelete` monotonicity -/

theorem applyDelete_length (e : CRDTEngine) (op : CRDTOperation) :
    e.characters.length ≤ (e.applyDelete op).characters.length := by
  unfold CRDTEngine.applyDelete
  rcases h1 : mget e.characters (op.charId.getD CId.undef) with _ | c
  · rcases h2 : e.characters.find?
        (fun kv => kv.2.position == op.position && kv.2.char == op.char) with _ | kv
    · simp only [h1, h2]
      exact le_trans (length_le_mset _ _ _) (markDeleted_length _ _ _)
    · simp only [h1, h2]
      exact markDeleted_length _ _ _
  · simp only [h1]
    exact markDeleted_length _ _ _

theorem applyDelete_isSome (e : CRDTEngine) (op : CRDTOperation) (k2 : CId)
    (h : (mget e.characters k2).isSome) :
    (mget (e.applyDelete op).characters k2).isSome := by
  unfold CRDTEngine.applyDelete
  rcases h1 : mget e.characters (op.charId.getD CId.undef) with _ | c
  · rcases h2 : e.characters.find?
        (fun kv => kv.2.position == op.position && kv.2.char == op.char) with _ | kv
    · simp only [h1, h2]
      exact markDeleted_isSome _ _ _ _ (mget_isSome_mset _ _ _ _ h)
    · simp only [h1, h2]
      exact markDeleted_isSome _ _ _ _ h
  · simp only [h1]
    exact markDeleted_isSome _ _ _ _ h

theorem applyDelete_delCount (e : CRDTEngine) (op : CRDTOperation) :
    delCount e.characters ≤ delCount (e.applyDelete op).characters := by
  unfold CRDTEngine.applyDelete
  rcases h1 : mget e.characters (op.charId.getD CId.undef) with _ | c
  · rcases h2 : e.characters.find?
        (fun kv => kv.2.position == op.position && kv.2.char == op.char) with _ | kv
    · simp only [h1, h2]
      refine le_trans ?_ (markDeleted_delCount _ _ _)
      rw [delCount_mset_fresh _ _ _ h1 rfl]
    · simp only [h1, h2]
      exact markDeleted_delCount _ _ _
  · simp only [h1]
    exact markDeleted_delCount _ _ _

theorem mget_some_mem (l : List (CId × CRDTChar)) (k : CId) (v : CRDTChar)
    (h : mget l k = some v) : (k, v) ∈ l := by
  unfold mget at h
  rcases hf : l.find? (fun kv => kv.1 = k) with _ | kv
  · rw [hf] at h
    exact Option.noConfusion h
  · rw [hf] at h
    have hmem := List.mem_of_find?_eq_some hf
    have hpred := List.find?_some hf
    rcases kv with ⟨k1, v1⟩
    simp at hpred h
    subst hpred
    subst h
    exact hmem

theorem applyDelete_mget (e : CRDTEngine) (op : CRDTOperation)
    (hwf : ∀ kv ∈ e.characters, kv.2.id = kv.1)
    (hnodup : (e.characters.map (fun kv => kv.1)).Nodup)
    (k2 : CId) (c2 : CRDTChar) (h : mget e.characters k2 = some c2) :
    mget (e.applyDelete op).characters k2 = some c2
    ∨ mget (e.applyDelete op).characters k2 = some { c2 with deleted := true } := by
  unfold CRDTEngine.applyDelete
  rcases h1 : mget e.characters (op.charId.getD CId.undef) with _ | c
  · rcases h2 : e.characters.find?
        (fun kv => kv.2.position == op.position && kv.2.char == op.char) with _ | kv
    · -- synthesize branch: the fresh entry sits at the absent key
      simp only [h1, h2]
      have hk2 : k2 ≠ op.charId.getD CId.undef := by
        intro he
        rw [he, h1] at h
        exact Option.noConfusion h
      left
      rw [markDeleted_mget _ (op.charId.getD CId.undef) _ rfl, if_neg hk2,
        mset_of_mget_none _ _ _ h1, mget_append_left _ _ _ _ h]
    · -- fallback (position, value) match
      simp only [h1, h2]
      have hmem : kv ∈ e.characters := List.mem_of_find?_eq_some h2
      have hid : kv.2.id = kv.1 := hwf kv hmem
      rw [markDeleted_mget _ _ _ hid]
      by_cases hk : k2 = kv.1
      · right
        rw [if_pos hk]
        have hv : mget e.characters kv.1 = some kv.2 :=
          mget_of_mem_nodup _ _ _ (by simpa using hmem) hnodup
        rw [hk, hv] at h
        obtain rfl : kv.2 = c2 := Option.some.inj h
        rfl
      · left
        rw [if_neg hk]
        exact h
  · -- found by char id
    simp only [h1]
    have hmem : (op.charId.getD CId.undef, c) ∈ e.characters := mget_some_mem _ _ _ h1
    have hid : c.id = op.charId.getD CId.undef := hwf _ hmem
    rw [markDeleted_mget _ _ _ hid]
    by_cases hk : k2 = op.charId.getD CId.undef
    · right
      subst hk
      rw [h1] at h
      obtain rfl : c = c2 := Option.some.inj h
      rw [if_pos rfl]
    · left
      rw [if_neg hk]
      exact h

theorem mget_isSome_append (k : CId) (l1 l2 : List (CId × CRDTChar))
    (h : (mget l1 k).isSome) : (mget (l1 ++ l2) k).isSome := by
  obtain ⟨v, hv⟩ := Option.isSome_iff_exists.1 h
  rw [mget_append_left _ _ _ _ hv]
  rfl

theorem applyOperation_characters_insert_none (e : CRDTEngine) (op : CRDTOperation)
    (h : e.operations.any (fun o => o.id = op.id) = false)
    (hty : op.type = OperationType.insert) :
    (e.applyOperation op none).characters
      = mset e.characters (CId.charGen op.clientId e.seed e.charCtr)
          { id := CId.charGen op.clientId e.seed e.charCtr
            char := op.char
            position := op.position
            clientId := op.clientId
            deleted := false } := by
  unfold CRDTEngine.applyOperation
  rw [h]
  simp [hty, CRDTEngine.applyInsert]

theorem applyOperation_characters_delete (e : CRDTEngine) (op : CRDTOperation)
    (h : e.operations.any (fun o => o.id = op.id) = false)
    (hty : op.type = OperationType.delete) :
    (e.applyOperation op none).characters = (e.applyDelete op).characters := by
  unfold CRDTEngine.applyOperation
  rw [h]
  simp [hty]

/-- The three per-step monotonicity facts for the remote delivery path. -/
theorem applyOperation_none_mono (e : CRDTEngine) (op : CRDTOperation)
    (hfresh : ∀ cl, mget e.characters (CId.charGen cl e.seed e.charCtr) = none) :
    e.characters.length ≤ (e.applyOperation op none).characters.length
    ∧ (∀ k, (mget e.characters k).isSome →
        (mget (e.applyOperation op none).characters k).isSome)
    ∧ delCount e.characters ≤ delCount (e.applyOperation op none).characters := by
  by_cases hdup : e.operations.any (fun o => o.id = op.id) = true
  · rw [applyOperation_of_dup e op none hdup]
    exact ⟨le_refl _, fun k h => h, le_refl _⟩
  · have h0 : e.operations.any (fun o => o.id = op.id) = false := by simpa using hdup
    cases hty : op.type with
    | insert =>
      rw [applyOperation_characters_insert_none e op h0 hty,
        mset_of_mget_none _ _ _ (hfresh op.clientId)]
      refine ⟨by simp, ?_, ?_⟩
      · intro k hk
        exact mget_isSome_append k _ _ hk
      · rw [delCount_append]
        exact Nat.le_add_right _ _
    | delete =>
      rw [applyOperation_characters_delete e op h0 hty]
      exact ⟨applyDelete_length e op, fun k => applyDelete_isSome e op k,
        applyDelete_delCount e op⟩

/-- The three per-step monotonicity facts for a locally supplied character
with a fresh id (the `insertChar` path). -/
theorem applyOperation_some_mono (e : CRDTEngine) (op : CRDTOperation) (c : CRDTChar)
    (hfresh : mget e.characters c.id = none) :
    e.characters.length ≤ (e.applyOperation op (some c)).characters.length
    ∧ (∀ k, (mget e.characters k).isSome →
        (mget (e.applyOperation op (some c)).characters k).isSome)
    ∧ delCount e.characters ≤ delCount (e.applyOperation op (some c)).characters := by
  by_cases hdup : e.operations.any (fun o => o.id = op.id) = true
  · rw [applyOperation_of_dup e op (some c) hdup]
    exact ⟨le_refl _, fun k h => h, le_refl _⟩
  · have h0 : e.operations.any (fun o => o.id = op.id) = false := by simpa using hdup
    cases hty : op.type with
    | insert =>
      rw [applyOperation_characters_insert e op c h0 hty,
        mset_of_mget_none _ _ _ hfresh]
      refine ⟨by simp, ?_, ?_⟩
      · intro k hk
        exact mget_isSome_append k _ _ hk
      · rw [delCount_append]
        exact Nat.le_add_right _ _
    | delete =>
      have hdel : (e.applyOperation op (some c)).characters
          = (e.applyDelete op).characters := by
        unfold CRDTEngine.applyOperation
        rw [h0]
        simp [hty]
      rw [hdel]
      exact ⟨applyDelete_length e op, fun k => applyDelete_isSome e op k,
        applyDelete_delCount e op⟩

/-- C9: across `insertChar`, `deleteChar` and `applyOperation`, the size
of the character map never decreases, no stored character's key ever
disappears, a delete at most flips a stored character's `deleted` flag to
true, and `getStats().deletedCharacters` is non-decreasing.  The
hypotheses are the well-formedness invariants of every reachable state:
stored ids match their keys, keys are duplicate-free, and the engine's
next generated char id is not yet in the map. -/
theorem C9_tombstone_monotonic (e : CRDTEngine) (op : CRDTOperation)
    (ch : String) (i : Int) (now : Nat)
    (hwf : ∀ kv ∈ e.characters, kv.2.id = kv.1)
    (hnodup : (e.characters.map (fun kv => kv.1)).Nodup)
    (hfresh : ∀ cl, mget e.characters (CId.charGen cl e.seed e.charCtr) = none) :
    (e.characters.length ≤ (e.applyOperation op none).characters.length
      ∧ (∀ k, (mget e.characters k).isSome →
          (mget (e.applyOperation op none).characters k).isSome)
      ∧ e.getStats.deletedCharacters
          ≤ (e.applyOperation op none).getStats.deletedCharacters)
    ∧ (op.type = OperationType.delete →
        ∀ k c2, mget e.characters k = some c2 →
          mget (e.applyOperation op none).characters k = some c2
          ∨ mget (e.applyOperation op none).characters k
              = some { c2 with deleted := true })
    ∧ (e.characters.length ≤ (e.insertChar ch i now).2.characters.length
      ∧ (∀ k, (mget e.characters k).isSome →
          (mget (e.insertChar ch i now).2.characters k).isSome)
      ∧ e.getStats.deletedCharacters
          ≤ (e.insertChar ch i now).2.getStats.deletedCharacters)
    ∧ (e.characters.length ≤ (e.deleteChar i now).2.characters.length
      ∧ (∀ k, (mget e.characters k).isSome →
          (mget (e.deleteChar i now).2.characters k).isSome)
      ∧ e.getStats.deletedCharacters
          ≤ (e.deleteChar i now).2.getStats.deletedCharacters) := by
  refine ⟨?_, ?_, ?_, ?_⟩
  · rw [getStats_deletedCharacters, getStats_deletedCharacters]
    exact applyOperation_none_mono e op hfresh
  · intro hty k c2 hk
    by_cases hdup : e.operations.any (fun o => o.id = op.id) = true
    · rw [applyOperation_of_dup e op none hdup]
      exact Or.inl hk
    · have h0 : e.operations.any (fun o => o.id = op.id) = false := by simpa using hdup
      rw [applyOperation_characters_delete e op h0 hty]
      exact applyDelete_mget e op hwf hnodup k c2 hk
  · rw [getStats_deletedCharacters, getStats_deletedCharacters]
    refine applyOperation_some_mono
      ({ e with charCtr := e.charCtr + 1, opCtr := e.opCtr + 1} : CRDTEngine) _ _ ?_
    exact hfresh e.clientId
  · rw [getStats_deletedCharacters, getStats_deletedCharacters]
    unfold CRDTEngine.deleteChar
    by_cases hout : i < 0 ∨ (e.getSortedVisibleChars.length : Int) ≤ i
    · rw [if_pos hout]
      exact ⟨le_refl _, fun 𝓀 h => h, le_refl _⟩
    · rw [if_neg hout]
      rcases hidx : jsIdx e.getSortedVisibleChars i with _ | ctd
      · simp only [hidx]
        exact ⟨le_refl _, fun 𝓀 h => h, le_refl _⟩
      · simp only [hidx]
        exact applyOperation_none_mono
          ({ e with opCtr := e.opCtr + 1} : CRDTEngine) _ hfresh

/-- Witness for `C9_tombstone_monotonic`: the empty engine, the concrete
remote delete operation, an insert of `"z"` at index 0. -/
theorem C9_tombstone_monotonic_witness :
    ((CRDTEngine.init "doc" "A" 0).characters.length
        ≤ ((CRDTEngine.init "doc" "A" 0).applyOperation cexDeleteOp none).characters.length
      ∧ (∀ k, (mget (CRDTEngine.init "doc" "A" 0).characters k).isSome →
          (mget ((CRDTEngine.init "doc" "A" 0).applyOperation cexDeleteOp none).characters
            k).isSome)
      ∧ (CRDTEngine.init "doc" "A" 0).getStats.deletedCharacters
          ≤ ((CRDTEngine.init "doc" "A" 0).applyOperation
              cexDeleteOp none).getStats.deletedCharacters)
    ∧ (cexDeleteOp.type = OperationType.delete →
        ∀ k c2, mget (CRDTEngine.init "doc" "A" 0).characters k = some c2 →
          mget ((CRDTEngine.init "doc" "A" 0).applyOperation cexDeleteOp none).characters k
              = some c2
          ∨ mget ((CRDTEngine.init "doc" "A" 0).applyOperation cexDeleteOp none).characters k
              = some { c2 with deleted := true })
    ∧ ((CRDTEngine.init "doc" "A" 0).characters.length
        ≤ ((CRDTEngine.init "doc" "A" 0).insertChar "z" 0 3).2.characters.length
      ∧ (∀ k, (mget (CRDTEngine.init "doc" "A" 0).characters k).isSome →
          (mget ((CRDTEngine.init "doc" "A" 0).insertChar "z" 0 3).2.characters k).isSome)
      ∧ (CRDTEngine.init "doc" "A" 0).getStats.deletedCharacters
          ≤ ((CRDTEngine.init "doc" "A" 0).insertChar "z" 0 3).2.getStats.deletedCharacters)
    ∧ ((CRDTEngine.init "doc" "A" 0).characters.length
        ≤ ((CRDTEngine.init "doc" "A" 0).deleteChar 0 3).2.characters.length
      ∧ (∀ k, (mget (CRDTEngine.init "doc" "A" 0).characters k).isSome →
          (mget ((CRDTEngine.init "doc" "A" 0).deleteChar 0 3).2.characters k).isSome)
      ∧ (CRDTEngine.init "doc" "A" 0).getStats.deletedCharacters
          ≤ ((CRDTEngine.init "doc" "A" 0).deleteChar 0 3).2.getStats.deletedCharacters) :=
  C9_tombstone_monotonic (CRDTEngine.init "doc" "A" 0) cexDeleteOp "z" 0 3
    (by intro kv h; exact absurd h (List.not_mem_nil kv))
    (by decide)
    (fun cl => rfl)

/-! ## Undo inverse-structure lemmas -/

theorem setState_states_same (m : UndoRedoManager) (f : FieldType)
    (st : UndoRedoFieldState) : (m.setState f st).states f = st := by
  unfold UndoRedoManager.setState
  simp

theorem generateInverseOperation_eq (m : UndoRedoManager) (op : CRDTOperation)
    (now : Nat) :
    m.generateInverseOperation op now
      = (inverseOpAt m.userId m.documentId m.seed now m.opCtr op,
         { m with opCtr := m.opCtr + 1 }) := by
  cases hty : op.type <;>
    simp [UndoRedoManager.generateInverseOperation, UndoRedoManager.freshOpId,
      inverseOpAt, hty]

theorem genInv_foldl (now : Nat) :
    ∀ (l acc : List CRDTOperation) (m : UndoRedoManager),
      l.foldl (fun acc op =>
          let r := acc.2.generateInverseOperation op now
          (acc.1 ++ [r.1], r.2)) (acc, m)
        = (acc ++ invListFrom m.userId m.documentId m.seed now m.opCtr l,
           { m with opCtr := m.opCtr + l.length }) := by
  intro l
  induction l with
  | nil =>
    intro acc m
    simp [invListFrom]
  | cons op rest ih =>
    intro acc m
    rw [List.foldl_cons]
    show rest.foldl _ ((fun acc op =>
        let r := acc.2.generateInverseOperation op now
        (acc.1 ++ [r.1], r.2)) (acc, m) op) = _
    rw [show ((fun (acc : List CRDTOperation × UndoRedoManager) op =>
        let r := acc.2.generateInverseOperation op now
        (acc.1 ++ [r.1], r.2)) (acc, m) op)
      = (acc ++ [inverseOpAt m.userId m.documentId m.seed now m.opCtr op],
         { m with opCtr := m.opCtr + 1 }) by
        simp [generateInverseOperation_eq]]
    rw [ih]
    refine Prod.ext ?_ ?_
    · show (acc ++ [_]) ++ invListFrom m.userId m.documentId m.seed now (m.opCtr + 1) rest
        = acc ++ invListFrom m.userId m.documentId m.seed now m.opCtr (op :: rest)
      rw [invListFrom, List.append_assoc]
      rfl
    · show ({ m with opCtr := m.opCtr + 1 + rest.length } : UndoRedoManager)
        = { m with opCtr := m.opCtr + (op :: rest).length }
      have harith : m.opCtr + 1 + rest.length = m.opCtr + (op :: rest).length := by
        simp
        omega
      rw [harith]

theorem generateInverseOperations_eq (m : UndoRedoManager)
    (ops : List CRDTOperation) (now : Nat) :
    m.generateInverseOperations ops now
      = (invListFrom m.userId m.documentId m.seed now m.opCtr ops.reverse,
         { m with opCtr := m.opCtr + ops.reverse.length }) := by
  unfold UndoRedoManager.generateInverseOperations
  exact genInv_foldl now ops.reverse [] m

theorem invListFrom_length (u d : String) (s now : Nat) :
    ∀ (l : List CRDTOperation) (k : Nat), (invListFrom u d s now k l).length = l.length := by
  intro l
  induction l with
  | nil => intro k; rfl
  | cons op rest ih =>
    intro k
    show (inverseOpAt u d s now k op :: invListFrom u d s now (k + 1) rest).length = _
    simp [ih]

theorem invListFrom_get? (u d : String) (s now : Nat) :
    ∀ (l : List CRDTOperation) (k j : Nat),
      (invListFrom u d s now k l).get? j
        = (l.get? j).map (fun op => inverseOpAt u d s now (k + j) op) := by
  intro l
  induction l with
  | nil => intro k j; simp [invListFrom]
  | cons op rest ih =>
    intro k j
    show (inverseOpAt u d s now k op :: invListFrom u d s now (k + 1) rest).get? j = _
    cases j with
    | zero => simp
    | succ j =>
      rw [List.get?_cons_succ, ih (k + 1) j]
      have h : k + 1 + j = k + (j + 1) := by omega
      rw [h, List.get?_cons_succ]

/-- C8: with no batch pending, `undo` pops the most recent undo step
(the last element of the stack), pushes it onto the redo stack, and
returns one inverse operation per recorded operation, produced in reverse
order: the j-th returned operation inverts the j-th-from-last recorded
one, keeping its field, position and value, flipping insert to delete
(with `charId` the `undo_`-prefixed original operation id) and delete to
insert, under a freshly drawn id and the undo-time timestamp. -/
theorem C8_undo_inverse_structure (m : UndoRedoManager) (f : FieldType) (now : Nat)
    (pre : List UndoStep) (step : UndoStep)
    (hstack : (m.states f).undoStack = pre ++ [step])
    (hbatch : (m.states f).currentBatch = none) :
    ∃ invs,
      (m.undo f now).1 = some invs
      ∧ ((m.undo f now).2.states f).undoStack = pre
      ∧ ((m.undo f now).2.states f).redoStack = (m.states f).redoStack ++ [step]
      ∧ invs.length = step.operations.length
      ∧ (∀ j orig inv,
          step.operations.get? (step.operations.length - 1 - j) = some orig →
          invs.get? j = some inv →
          inv.field = orig.field ∧ inv.position = orig.position
          ∧ inv.char = orig.char ∧ inv.clientId = m.userId
          ∧ inv.timestamp = now
          ∧ inv.id = CId.opGen m.userId m.seed (m.opCtr + j)
          ∧ (orig.type = OperationType.insert →
              inv.type = OperationType.delete
              ∧ inv.charId = some (CId.undoOf orig.id))
          ∧ (orig.type = OperationType.delete →
              inv.type = OperationType.insert ∧ inv.charId = none)) := by
  have hemp : (m.states f).undoStack.isEmpty = false := by
    rw [hstack]
    cases pre <;> simp
  have hgl : (m.states f).undoStack.getLast? = some step := by
    rw [hstack]
    exact List.getLast?_concat _
  have hdl : (m.states f).undoStack.dropLast = pre := by
    rw [hstack]
    exact List.dropLast_concat
  have hpair : m.undo f now
      = (some (invListFrom m.userId m.documentId m.seed now m.opCtr
            step.operations.reverse),
         ({ m.setState f { m.states f with undoStack := pre } with
              opCtr := m.opCtr + step.operations.reverse.length }).setState f
           { { m.states f with undoStack := pre } with
               redoStack := (m.states f).redoStack ++ [step] }) := by
    unfold UndoRedoManager.undo
    simp only [hemp, hbatch, hgl, hdl, Bool.false_eq_true, if_false,
      generateInverseOperations_eq, setState_states_same]
    rfl
  refine ⟨invListFrom m.userId m.documentId m.seed now m.opCtr
      step.operations.reverse, ?_, ?_, ?_, ?_, ?_⟩
  · rw [hpair]
  · rw [hpair]
    simp [UndoRedoManager.setState]
  · rw [hpair]
    simp [UndoRedoManager.setState]
  · rw [invListFrom_length]
    exact List.length_reverse _
  · intro j orig inv horig hinv
    rw [invListFrom_get?] at hinv
    have hj : j < step.operations.length := by
      by_contra hge
      push_neg at hge
      have hnone : step.operations.reverse.get? j = none :=
        List.get?_eq_none.2 (by simpa using hge)
      rw [hnone] at hinv
      exact Option.noConfusion hinv
    rw [List.get?_reverse (by simpa using hj), horig] at hinv
    have hinv2 : inverseOpAt m.userId m.documentId m.seed now (m.opCtr + j) orig
        = inv := Option.some.inj hinv
    subst hinv2
    cases hty : orig.type <;> simp [inverseOpAt, hty]

/-- Witness for `C8_undo_inverse_structure`: the concrete manager
`c8Manager` holding exactly `c8Step`, undone at time 9. -/
theorem C8_undo_inverse_structure_witness :
    ∃ invs,
      (c8Manager.undo FieldType.content 9).1 = some invs
      ∧ (((c8Manager.undo FieldType.content 9).2.states FieldType.content).undoStack = [])
      ∧ (((c8Manager.undo FieldType.content 9).2.states FieldType.content).redoStack
          = (c8Manager.states FieldType.content).redoStack ++ [c8Step])
      ∧ invs.length = c8Step.operations.length
      ∧ (∀ j orig inv,
          c8Step.operations.get? (c8Step.operations.length - 1 - j) = some orig →
          invs.get? j = some inv →
          inv.field = orig.field ∧ inv.position = orig.position
          ∧ inv.char = orig.char ∧ inv.clientId = c8Manager.userId
          ∧ inv.timestamp = 9
          ∧ inv.id = CId.opGen c8Manager.userId c8Manager.seed (c8Manager.opCtr + j)
          ∧ (orig.type = OperationType.insert →
              inv.type = OperationType.delete
              ∧ inv.charId = some (CId.undoOf orig.id))
          ∧ (orig.type = OperationType.delete →
              inv.type = OperationType.insert ∧ inv.charId = none)) :=
  C8_undo_inverse_structure c8Manager FieldType.content 9 [] c8Step
    (by decide) (by decide)

/-- C10: a remotely delivered insert (no locally supplied character)
stores its character under an id freshly drawn from the *applying*
engine's clock/randomness stream (`generateCharId(op.clientId)` at the
engine's own seed and draw counter) — so the same operation applied by
two engines on distinct streams is stored under different ids — and a
later delete that carries the originating client's `charId` (absent from
the local map) resolves the character only through the
`(position, value)` fallback, tombstoning the locally stored copy. -/
theorem C10_remote_insert_fresh_id (e1 e2 : CRDTEngine) (op delOp : CRDTOperation)
    (hty : op.type = OperationType.insert)
    (hnew1 : e1.operations.any (fun o => o.id = op.id) = false)
    (hfresh1 : mget e1.characters (CId.charGen op.clientId e1.seed e1.charCtr) = none)
    (hseed : e1.seed ≠ e2.seed)
    (hdty : delOp.type = OperationType.delete)
    (hdpos : delOp.position = op.position)
    (hdchar : delOp.char = op.char)
    (hdcid : mget (e1.applyOperation op none).characters
        (delOp.charId.getD CId.undef) = none)
    (hdnew : (e1.applyOperation op none).operations.any
        (fun o => o.id = delOp.id) = false)
    (hnomatch : ∀ kv ∈ e1.characters,
        ¬ (kv.2.position = op.position ∧ kv.2.char = op.char)) :
    mget (e1.applyOperation op none).characters
        (CId.charGen op.clientId e1.seed e1.charCtr)
      = some { id := CId.charGen op.clientId e1.seed e1.charCtr, char := op.char,
               position := op.position, clientId := op.clientId, deleted := false }
    ∧ CId.charGen op.clientId e1.seed e1.charCtr
        ≠ CId.charGen op.clientId e2.seed e2.charCtr
    ∧ mget ((e1.applyOperation op none).applyOperation delOp none).characters
          (CId.charGen op.clientId e1.seed e1.charCtr)
        = some { id := CId.charGen op.clientId e1.seed e1.charCtr, char := op.char,
                 position := op.position, clientId := op.clientId, deleted := true } := by
  have hchars : (e1.applyOperation op none).characters
      = e1.characters
        ++ [(CId.charGen op.clientId e1.seed e1.charCtr,
             { id := CId.charGen op.clientId e1.seed e1.charCtr, char := op.char,
               position := op.position, clientId := op.clientId, deleted := false })] := by
    rw [applyOperation_characters_insert_none e1 op hnew1 hty,
      mset_of_mget_none _ _ _ hfresh1]
  have hstored : mget (e1.applyOperation op none).characters
      (CId.charGen op.clientId e1.seed e1.charCtr)
      = some { id := CId.charGen op.clientId e1.seed e1.charCtr, char := op.char,
               position := op.position, clientId := op.clientId, deleted := false } := by
    rw [hchars, mget_append_none _ _ _ hfresh1, mget_cons]
    simp
  refine ⟨hstored, ?_, ?_⟩
  · intro h
    rw [CId.charGen.injEq] at h
    exact hseed h.2.1
  · have hfind : (e1.applyOperation op none).characters.find?
        (fun kv => kv.2.position == delOp.position && kv.2.char == delOp.char)
        = some (CId.charGen op.clientId e1.seed e1.charCtr,
            { id := CId.charGen op.clientId e1.seed e1.charCtr, char := op.char,
              position := op.position, clientId := op.clientId, deleted := false }) := by
      rw [hchars, List.find?_append]
      have hleft : e1.characters.find?
          (fun kv => kv.2.position == delOp.position && kv.2.char == delOp.char)
          = none := by
        rw [List.find?_eq_none]
        intro kv hkv
        have := hnomatch kv hkv
        simp only [hdpos, hdchar, Bool.and_eq_true, beq_iff_eq]
        intro hcontra
        exact this hcontra
      rw [hleft]
      simp [hdpos, hdchar]
    rw [applyOperation_characters_delete _ delOp hdnew hdty]
    unfold CRDTEngine.applyDelete
    simp only [hdcid, hfind]
    rw [markDeleted_mget _ (CId.charGen op.clientId e1.seed e1.charCtr) _ rfl]
    simp

/-- Witness for `C10_remote_insert_fresh_id`: two fresh engines on
streams 0 and 1, the concrete remote insert and its matching delete. -/
theorem C10_remote_insert_fresh_id_witness :
    mget ((CRDTEngine.init "doc" "A" 0).applyOperation cexInsertOp none).characters
        (CId.charGen cexInsertOp.clientId (CRDTEngine.init "doc" "A" 0).seed
          (CRDTEngine.init "doc" "A" 0).charCtr)
      = some { id := CId.charGen cexInsertOp.clientId (CRDTEngine.init "doc" "A" 0).seed
                  (CRDTEngine.init "doc" "A" 0).charCtr,
               char := cexInsertOp.char, position := cexInsertOp.position,
               clientId := cexInsertOp.clientId, deleted := false }
    ∧ CId.charGen cexInsertOp.clientId (CRDTEngine.init "doc" "A" 0).seed
          (CRDTEngine.init "doc" "A" 0).charCtr
        ≠ CId.charGen cexInsertOp.clientId (CRDTEngine.init "doc" "B" 1).seed
            (CRDTEngine.init "doc" "B" 1).charCtr
    ∧ mget (((CRDTEngine.init "doc" "A" 0).applyOperation cexInsertOp
            none).applyOperation cexDeleteOp none).characters
          (CId.charGen cexInsertOp.clientId (CRDTEngine.init "doc" "A" 0).seed
            (CRDTEngine.init "doc" "A" 0).charCtr)
        = some { id := CId.charGen cexInsertOp.clientId (CRDTEngine.init "doc" "A" 0).seed
                    (CRDTEngine.init "doc" "A" 0).charCtr,
                 char := cexInsertOp.char, position := cexInsertOp.position,
                 clientId := cexInsertOp.clientId, deleted := true } :=
  C10_remote_insert_fresh_id (CRDTEngine.init "doc" "A" 0) (CRDTEngine.init "doc" "B" 1)
    cexInsertOp cexDeleteOp rfl (by decide) (by decide) (by decide) rfl rfl rfl
    (by decide) (by decide)
    (by intro kv h; exact absurd h (List.not_mem_nil kv))

/-- C3: starting from an empty field, typing the five characters of
"hello" at visible indices 0–4, closing the batch, then `undo` followed by
`redo` leaves the field's visible content at exactly "hello" (and the
undo itself had cleared it). -/
theorem C3_hello_undo_redo_round_trip :
    helloTyped.getFieldContent FieldType.content = "hello"
    ∧ helloAfterUndo.getFieldContent FieldType.content = ""
    ∧ helloAfterRedo.getFieldContent FieldType.content = "hello" := by
  decide!

/-- C4: `rebuildContent` clears the characters map but not the operation
log it replays, so every replayed operation is skipped by the
duplicate-id guard: on an engine holding one inserted character, the
rebuilt engine has an empty characters map and empty visible content
while its operation log is intact — incremental state is *not*
preserved. -/
theorem C4_rebuild_wipes_characters :
    (((CRDTEngine.init "doc" "A" 0).insertChar "a" 0 0).2.getVisibleContent = "a"
    ∧ ((CRDTEngine.init "doc" "A" 0).insertChar "a" 0 0).2.operations.length = 1)
    ∧ ((CRDTEngine.init "doc" "A" 0).insertChar "a" 0 0).2.rebuildContent.characters = []
    ∧ ((CRDTEngine.init "doc" "A" 0).insertChar "a" 0 0).2.rebuildContent.getVisibleContent = ""
    ∧ ((CRDTEngine.init "doc" "A" 0).insertChar "a" 0 0).2.rebuildContent.operations
        = ((CRDTEngine.init "doc" "A" 0).insertChar "a" 0 0).2.operations := by
  decide!

/-! ## Convergence of insert-only replays -/

theorem getVisibleContent_eq (e : CRDTEngine) :
    e.getVisibleContent
      = contentOfTriples (e.characters.map (fun kv => visTriple kv.2)) := by
  unfold contentOfTriples CRDTEngine.getVisibleContent CRDTEngine.getContent
    CRDTEngine.getSortedVisibleChars mvalues
  rw [show (e.characters.map (fun kv => visTriple kv.2))
      = (e.characters.map (fun kv => kv.2)).map visTriple by rw [List.map_map]; rfl]
  conv_rhs => rw [List.filter_map]
  rw [show ((fun t : String × Option String × Bool => decide ¬ t.2.2 = true) ∘ visTriple)
      = (fun c : CRDTChar => decide ¬ c.deleted = true) from rfl]
  rw [← jsSortBy_map visTriple charCmp tripleCmp (fun x y => rfl)]
  rw [List.map_map]
  rfl

theorem applyInsert_seed (e : CRDTEngine) (op : CRDTOperation) (ch : Option CRDTChar) :
    (e.applyInsert op ch).seed = e.seed := by
  cases ch <;> rfl

theorem applyDelete_seed (e : CRDTEngine) (op : CRDTOperation) :
    (e.applyDelete op).seed = e.seed := by
  unfold CRDTEngine.applyDelete
  rcases h1 : mget e.characters (op.charId.getD CId.undef) with _ | c
  · rcases h2 : e.characters.find?
        (fun kv => kv.2.position == op.position && kv.2.char == op.char) with _ | kv
    · simp [h1, h2]
    · simp [h1, h2]
  · simp [h1]

theorem applyOperation_seed (e : CRDTEngine) (op : CRDTOperation)
    (ch : Option CRDTChar) : (e.applyOperation op ch).seed = e.seed := by
  unfold CRDTEngine.applyOperation
  by_cases hdup : e.operations.any (fun o => o.id = op.id) = true
  · rw [hdup]
    simp
  · have h0 : e.operations.any (fun o => o.id = op.id) = false := by simpa using hdup
    rw [h0]
    cases hty : op.type <;> simp [hty, applyInsert_seed, applyDelete_seed]

theorem applyOperation_charCtr_insert_none (e : CRDTEngine) (op : CRDTOperation)
    (h : e.operations.any (fun o => o.id = op.id) = false)
    (hty : op.type = OperationType.insert) :
    (e.applyOperation op none).charCtr = e.charCtr + 1 := by
  unfold CRDTEngine.applyOperation
  rw [h]
  simp [hty, CRDTEngine.applyInsert]

theorem applyAll_insert_spec :
    ∀ (ops : List CRDTOperation) (e : CRDTEngine),
      (∀ op ∈ ops, op.type = OperationType.insert) →
      ((e.operations ++ ops).map (fun o => o.id)).Nodup →
      (∀ cl n2, e.charCtr ≤ n2 → mget e.characters (CId.charGen cl e.seed n2) = none) →
      (applyAll e ops).characters.map (fun kv => visTriple kv.2)
        = e.characters.map (fun kv => visTriple kv.2) ++ ops.map opTriple := by
  intro ops
  induction ops with
  | nil =>
    intro e _ _ _
    simp [applyAll]
  | cons op rest ih =>
    intro e hins hnodup hfresh
    have hty : op.type = OperationType.insert := hins op (by simp)
    have hnotin : op.id ∉ e.operations.map (fun o => o.id) := by
      rw [List.map_append] at hnodup
      have hdisj := (List.nodup_append.1 hnodup).2.2
      intro hmem
      exact hdisj hmem (by simp)
    have h0 : e.operations.any (fun o => o.id = op.id) = false := by
      simp only [List.any_eq_false, decide_eq_true_eq]
      intro o ho hid
      exact hnotin (List.mem_map.2 ⟨o, ho, hid⟩)
    have hchars : (e.applyOperation op none).characters
        = e.characters
          ++ [(CId.charGen op.clientId e.seed e.charCtr,
               { id := CId.charGen op.clientId e.seed e.charCtr, char := op.char,
                 position := op.position, clientId := op.clientId, deleted := false })] := by
      rw [applyOperation_characters_insert_none e op h0 hty,
        mset_of_mget_none _ _ _ (hfresh op.clientId e.charCtr (le_refl _))]
    have hops : (e.applyOperation op none).operations = e.operations ++ [op] :=
      applyOperation_operations_of_fresh e op none h0
    have hseed : (e.applyOperation op none).seed = e.seed :=
      applyOperation_seed e op none
    have hctr : (e.applyOperation op none).charCtr = e.charCtr + 1 :=
      applyOperation_charCtr_insert_none e op h0 hty
    have hstep : applyAll e (op :: rest) = applyAll (e.applyOperation op none) rest := rfl
    rw [hstep, ih (e.applyOperation op none) (fun o ho => hins o (by simp [ho]))
      (by rw [hops, List.append_assoc]; simpa using hnodup)
      ?_ ]
    · rw [hchars, List.map_append]
      simp [visTriple, opTriple]
    · intro cl n2 hn2
      rw [hctr] at hn2
      rw [hchars, hseed, mget_append_none _ _ _ (hfresh cl n2 (by omega)), mget_cons]
      have hk : ¬ (CId.charGen op.clientId e.seed e.charCtr = CId.charGen cl e.seed n2) := by
        intro hcontra
        rw [CId.charGen.injEq] at hcontra
        omega
      rw [if_neg hk]
      rfl

/-- C1 (counterexample): the two orders of the same two-operation set
{remote insert, remote delete} leave two fresh engines with different
visible content — applying the delete first synthesizes a tombstone under
the operation's `charId`, and the insert then stores the character under
a freshly generated id that the tombstone does not reach. -/
theorem C1_convergence_counterexample :
    [cexInsertOp, cexDeleteOp].Perm [cexDeleteOp, cexInsertOp]
    ∧ (((CRDTEngine.init "doc" "A" 0).applyOperation cexInsertOp none).applyOperation
        cexDeleteOp none).getVisibleContent = ""
    ∧ (((CRDTEngine.init "doc" "B" 1).applyOperation cexDeleteOp none).applyOperation
        cexInsertOp none).getVisibleContent = "a"
    ∧ (((CRDTEngine.init "doc" "A" 0).applyOperation cexInsertOp none).applyOperation
        cexDeleteOp none).getVisibleContent
      ≠ (((CRDTEngine.init "doc" "B" 1).applyOperation cexDeleteOp none).applyOperation
        cexInsertOp none).getVisibleContent := by
  decide!

/-- C5 (counterexample): with only `next` absent the generated key orders
strictly *greater* than `prev` (the integer part is incremented), and
with only `prev` absent strictly *less* than `next` — the opposite of the
claimed directions. -/
theorem C5_boundary_counterexample :
    generatePosition (some "1.0.A") none "B" = "2.0.B"
    ∧ posCmp "2.0.B" "1.0.A" = 1
    ∧ generatePosition none (some "1.0.A") "B" = "0.0.B"
    ∧ posCmp "0.0.B" "1.0.A" = -1 := by
  decide!

/-- C6 (counterexample): `"1.0.A"` orders strictly before `"1.5.B"`, yet
`generatePosition` between them parses both integer parts as 1, returns
the key `"1.C"` whose numeric part 1 is not strictly between 1 and 1, and
that key orders strictly *before* `prev` rather than between the two. -/
theorem C6_between_counterexample :
    posCmp "1.0.A" "1.5.B" < 0
    ∧ generatePosition (some "1.0.A") (some "1.5.B") "C" = "1.C"
    ∧ posNum "1.0.A" = some 1
    ∧ posNum "1.5.B" = some 1
    ∧ posNum "1.C" = some 1
    ∧ posCmp "1.C" "1.0.A" < 0 := by
  decide!

/-- C7 (counterexample): on an empty field (visible range empty), an
insert request at the out-of-range visible index 5 is *not* rejected: it
returns an insert operation and changes the state, leaving visible
content `"a"`. -/
theorem C7_invalid_index_counterexample :
    (CRDTEngine.init "doc" "A" 0).getSortedVisibleChars.length = 0
    ∧ ((CRDTEngine.init "doc" "A" 0).insertChar "a" 5 0).1.type = OperationType.insert
    ∧ ((CRDTEngine.init "doc" "A" 0).insertChar "a" 5 0).2.getVisibleContent = "a"
    ∧ ((CRDTEngine.init "doc" "A" 0).insertChar "a" 5 0).2 ≠ CRDTEngine.init "doc" "A" 0 := by
  decide!

/-- C1 (amended): insert-only convergence — two fresh engines that replay
two permutations of the same finite set of insert operations end with the
same visible content, whatever their document ids, client ids and entropy
streams, provided the operation ids are pairwise distinct and
`comparePositions` orders the set consistently: the strict order is
transitive on the set and ties occur only between operations carrying the
same position and the same character value. -/
theorem C1_convergence_insert_only (ops1 ops2 : List CRDTOperation)
    (d1 cl1 d2 cl2 : String) (s1 s2 : Nat)
    (hperm : ops1.Perm ops2)
    (hins : ∀ op ∈ ops1, op.type = OperationType.insert)
    (hids : (ops1.map (fun o => o.id)).Nodup)
    (htie : ∀ o1 ∈ ops1, ∀ o2 ∈ ops1, posCmp o1.position o2.position = 0 →
      o1.position = o2.position ∧ o1.char = o2.char)
    (htrans : ∀ o1 ∈ ops1, ∀ o2 ∈ ops1, ∀ o3 ∈ ops1,
      posCmp o1.position o2.position < 0 → posCmp o2.position o3.position < 0 →
      posCmp o1.position o3.position < 0) :
    (applyAll (CRDTEngine.init d1 cl1 s1) ops1).getVisibleContent
      = (applyAll (CRDTEngine.init d2 cl2 s2) ops2).getVisibleContent := by
  have hins2 : ∀ op ∈ ops2, op.type = OperationType.insert :=
    fun op hop => hins op (hperm.mem_iff.2 hop)
  have hids2 : (ops2.map (fun o => o.id)).Nodup :=
    (hperm.map (fun o => o.id)).nodup_iff.1 hids
  have h1 := applyAll_insert_spec ops1 (CRDTEngine.init d1 cl1 s1) hins
    hids (fun _ _ _ => rfl)
  have h2 := applyAll_insert_spec ops2 (CRDTEngine.init d2 cl2 s2) hins2
    hids2 (fun _ _ _ => rfl)
  rw [getVisibleContent_eq, getVisibleContent_eq, h1, h2]
  show contentOfTriples (ops1.map opTriple) = contentOfTriples (ops2.map opTriple)
  have hfilter : ∀ ops : List CRDTOperation,
      (ops.map opTriple).filter (fun t => ¬ t.2.2) = ops.map opTriple := by
    intro ops
    refine List.filter_eq_self.2 ?_
    intro t ht
    obtain ⟨o, _, rfl⟩ := List.mem_map.1 ht
    rfl
  have hsort : jsSortBy tripleCmp (ops1.map opTriple)
      = jsSortBy tripleCmp (ops2.map opTriple) := by
    refine jsSortBy_eq_of_perm tripleCmp (fun x y => posCmp_antisym x.1 y.1) _ _
      (hperm.map opTriple) ?_ ?_
    · intro x hx y hy z hz hxy hyz
      obtain ⟨ox, hox, rfl⟩ := List.mem_map.1 hx
      obtain ⟨oy, hoy, rfl⟩ := List.mem_map.1 hy
      obtain ⟨oz, hoz, rfl⟩ := List.mem_map.1 hz
      exact htrans ox hox oy hoy oz hoz hxy hyz
    · intro x hx y hy hxy
      obtain ⟨ox, hox, rfl⟩ := List.mem_map.1 hx
      obtain ⟨oy, hoy, rfl⟩ := List.mem_map.1 hy
      obtain ⟨hp, hc⟩ := htie ox hox oy hoy hxy
      show (ox.position, ox.char, false) = (oy.position, oy.char, false)
      rw [hp, hc]
  unfold contentOfTriples
  rw [hfilter ops1, hfilter ops2, hsort]

theorem C1_convergence_insert_only_witness :
    [c1OpA, c1OpB].Perm [c1OpB, c1OpA]
    ∧ (applyAll (CRDTEngine.init "doc" "A" 0) [c1OpA, c1OpB]).getVisibleContent
      = (applyAll (CRDTEngine.init "doc" "B" 1) [c1OpB, c1OpA]).getVisibleContent :=
  ⟨List.Perm.swap c1OpB c1OpA [],
    C1_convergence_insert_only [c1OpA, c1OpB] [c1OpB, c1OpA] "doc" "A" "doc" "B" 0 1
      (List.Perm.swap c1OpB c1OpA []) (by decide) (by decide) (by decide) (by decide)⟩

end Flowly
